import Mathlib

/-!
# Verification of the time-editor interval core

A shallow embedding of the repository's calendar arithmetic (the Luxon
calls used by the code, modelled in UTC on a proleptic Gregorian calendar
with fixed 86 400 000 ms days), of the grid snapping and grid-line
enumeration in `src/lib/timeline-utils.ts`, of the interval operations in
`src/lib/utils.ts` (the part after the separator, i.e. `timeline-utils-v2`),
and of the reducer and batch handlers in `src/contexts/TimelineContext.tsx`.
Timestamps are integers (milliseconds since the Unix epoch); values that the
JavaScript code lets become fractional (interval start times after a scale
by 0.5) are rationals; a Luxon `Invalid DateTime` (`toMillis()` = NaN) is
`none`.
-/

namespace TimeEditor

/-- Milliseconds in one fixed 24-hour day. -/
def msPerDay : Int := 86400000

/-- Proleptic Gregorian leap-year test (as Luxon computes it). -/
def isLeapYear (y : Int) : Bool :=
  y % 4 == 0 && (y % 100 != 0 || y % 400 == 0)

/-- Days in month `m` (1–12) of a year with leap flag `leap`. -/
def daysInMonthB (leap : Bool) (m : Nat) : Nat :=
  if m = 2 then (if leap then 29 else 28)
  else if m = 4 ∨ m = 6 ∨ m = 9 ∨ m = 11 then 30
  else 31

/-- Days before month `m` (1–12) within its year, for leap flag `leap`. -/
def daysBeforeMonthB (leap : Bool) : Nat → Nat
  | 0 => 0
  | m + 1 => daysBeforeMonthB leap m + if m = 0 then 0 else daysInMonthB leap m

/-- Days in a year with leap flag `leap`. -/
def daysInYearB (leap : Bool) : Nat := if leap then 366 else 365

def daysInMonth (y : Int) (m : Nat) : Nat := daysInMonthB (isLeapYear y) m

def daysBeforeMonth (y : Int) (m : Nat) : Nat := daysBeforeMonthB (isLeapYear y) m

def daysInYear (y : Int) : Nat := daysInYearB (isLeapYear y)

/-- Days from the epoch year's Jan 1 going up: `sumDaysUp y n` counts the days
in the `n` years `y, y+1, …, y+n-1`. -/
def sumDaysUp (y : Int) : Nat → Nat
  | 0 => 0
  | n + 1 => daysInYear y + sumDaysUp (y + 1) n

/-- `sumDaysDown y n` counts the days in the `n` years `y-1, y-2, …, y-n`. -/
def sumDaysDown (y : Int) : Nat → Nat
  | 0 => 0
  | n + 1 => daysInYear (y - 1) + sumDaysDown (y - 1) n

def epochYear : Int := 1970

/-- Days from 1970-01-01 to `y`-01-01 (negative for years before 1970). -/
def daysToYearStart (y : Int) : Int :=
  if epochYear ≤ y then (sumDaysUp epochYear (y - epochYear).toNat : Int)
  else -(sumDaysDown epochYear (epochYear - y).toNat : Int)

/-- Year scan going up (structural fuel recursion so that the kernel can
evaluate it): position `d` days after Jan 1 of year `y`. -/
def yearOfDaysUpF : Nat → Int → Nat → Int × Nat
  | 0, y, d => (y, d)
  | fuel + 1, y, d =>
    if d < daysInYear y then (y, d) else yearOfDaysUpF fuel (y + 1) (d - daysInYear y)

/-- Year scan going down: position `d` days before Jan 1 of year `y`, `1 ≤ d`. -/
def yearOfDaysDownF : Nat → Int → Nat → Int × Nat
  | 0, y, d => (y - 1, daysInYear (y - 1) - d)
  | fuel + 1, y, d =>
    if d ≤ daysInYear (y - 1) then (y - 1, daysInYear (y - 1) - d)
    else yearOfDaysDownF fuel (y - 1) (d - daysInYear (y - 1))

/-- (year, 0-based day of year) of a day count relative to 1970-01-01. -/
def yearDoyOfDays (z : Int) : Int × Nat :=
  if 0 ≤ z then yearOfDaysUpF z.toNat epochYear z.toNat
  else yearOfDaysDownF (-z).toNat epochYear (-z).toNat

/-- Month scan through a year (fuel 11, starting at month 1): turns a 0-based
day of year into a (month, 1-based day of month) pair. -/
def monthOfDoyF : Nat → Int → Nat → Nat → Nat × Nat
  | 0, _, m, doy => (m, doy + 1)
  | fuel + 1, y, m, doy =>
    if doy < daysInMonth y m then (m, doy + 1)
    else monthOfDoyF fuel y (m + 1) (doy - daysInMonth y m)

def monthDayOfDoy (y : Int) (doy : Nat) : Nat × Nat := monthOfDoyF 11 y 1 doy

/-- Day number of a timestamp (floor division, as `Math.floor(t / 86400000)`). -/
def dayNumber (t : Int) : Int := t / msPerDay

/-- Millisecond offset within the day. -/
def msInDay (t : Int) : Int := t % msPerDay

def theYear (t : Int) : Int := (yearDoyOfDays (dayNumber t)).1

def theDoy0 (t : Int) : Nat := (yearDoyOfDays (dayNumber t)).2

def theMonth (t : Int) : Nat := (monthDayOfDoy (theYear t) (theDoy0 t)).1

def theDay (t : Int) : Nat := (monthDayOfDoy (theYear t) (theDoy0 t)).2

/-- Luxon `dt.ordinal`: 1-based day of year. -/
def ordinal1 (t : Int) : Nat := theDoy0 t + 1

/-- Timestamp of year `y`, month `m`, day `d`, plus `ms` within the day. -/
def mkMillis (y : Int) (m d : Nat) (ms : Int) : Int :=
  (daysToYearStart y + ((daysBeforeMonth y m + (d - 1) : Nat) : Int)) * msPerDay + ms

/-- Timestamp of midnight on the 1-based ordinal day `doy1` of year `y`
(Luxon `DateTime.fromObject {year, ordinal}`). -/
def ordMillis (y : Int) (doy1 : Nat) : Int :=
  (daysToYearStart y + ((doy1 - 1 : Nat) : Int)) * msPerDay

/-- Luxon `dt.startOf('day')` in the UTC model. -/
def startOfDayM (t : Int) : Int := dayNumber t * msPerDay

/-- Luxon `dt.startOf('month')`. -/
def startOfMonthM (t : Int) : Int := mkMillis (theYear t) (theMonth t) 1 0

/-- Luxon `dt.startOf('year')`. -/
def startOfYearM (t : Int) : Int := mkMillis (theYear t) 1 1 0

/-- Luxon `dt.plus({days: n})`: fixed 24-hour days in the UTC model. -/
def plusDaysM (t n : Int) : Int := t + n * msPerDay

/-- Luxon `dt.plus({months: n})`: shift the month index, clamp the day to the
target month's length, keep the time of day. -/
def plusMonthsM (t n : Int) : Int :=
  let total : Int := ((theMonth t : Int) - 1) + n
  let y2 : Int := theYear t + total / 12
  let m2 : Nat := (total % 12).toNat + 1
  mkMillis y2 m2 (min (theDay t) (daysInMonth y2 m2)) (msInDay t)

/-- Luxon `dt.plus({years: n})`: same month, day clamped (Feb 29 → Feb 28). -/
def plusYearsM (t n : Int) : Int :=
  mkMillis (theYear t + n) (theMonth t)
    (min (theDay t) (daysInMonth (theYear t + n) (theMonth t))) (msInDay t)

/-- Absolute month index `12*year + (month - 1)`. -/
def monthIndexM (t : Int) : Int := 12 * theYear t + ((theMonth t : Int) - 1)

/-- Luxon `diff(earlier, later, ['months']).months` for `earlier ≤ later`:
the whole months walked from `earlier` (the month-index difference, backed up
by one if it overshoots), plus the remainder as a fraction of the month that
follows the cursor (src/impl/diff.js). -/
def monthsDiffNN (e l : Int) : ℚ :=
  let c0 : Int := monthIndexM l - monthIndexM e
  if plusMonthsM e c0 ≤ l then
    if plusMonthsM e c0 = l then (c0 : ℚ)
    else (c0 : ℚ) + ((l - plusMonthsM e c0 : Int) : ℚ)
      / ((plusMonthsM (plusMonthsM e c0) 1 - plusMonthsM e c0 : Int) : ℚ)
  else
    ((c0 - 1 : Int) : ℚ) + ((l - plusMonthsM e (c0 - 1) : Int) : ℚ)
      / ((plusMonthsM e c0 - plusMonthsM e (c0 - 1) : Int) : ℚ)

/-- Luxon `this.diff(other, 'months').months`: positive when `this` is later,
negated when `other` is later. -/
def monthsDiffM (t s : Int) : ℚ :=
  if s ≤ t then monthsDiffNN s t else -(monthsDiffNN t s)

/-- Luxon `diff(earlier, later, ['years']).years` for `earlier ≤ later`. -/
def yearsDiffNN (e l : Int) : ℚ :=
  let c0 : Int := theYear l - theYear e
  if plusYearsM e c0 ≤ l then
    if plusYearsM e c0 = l then (c0 : ℚ)
    else (c0 : ℚ) + ((l - plusYearsM e c0 : Int) : ℚ)
      / ((plusYearsM (plusYearsM e c0) 1 - plusYearsM e c0 : Int) : ℚ)
  else
    ((c0 - 1 : Int) : ℚ) + ((l - plusYearsM e (c0 - 1) : Int) : ℚ)
      / ((plusYearsM e c0 - plusYearsM e (c0 - 1) : Int) : ℚ)

/-- Luxon `this.diff(other, 'years').years`. -/
def yearsDiffM (t s : Int) : ℚ :=
  if s ≤ t then yearsDiffNN s t else -(yearsDiffNN t s)

/-- `'day' | 'month' | 'year'` of `src/types/timeline.ts`. -/
inductive GridIntervalUnit
  | day
  | month
  | year
deriving DecidableEq, Repr

/-- `GridSettings` of `src/types/timeline.ts`. -/
structure GridSettings where
  unit : GridIntervalUnit
  value : Nat
deriving DecidableEq, Repr

/-- The legacy (no start date) branch of `snapToGrid` in
`src/lib/timeline-utils.ts`: calendar-boundary snapping.  The day branch with
`value > 1` computes `Math.floor(dt.ordinal / value) * value + 1` (no `- 1`,
unlike the month branch) and builds the date from `{year, ordinal}`, which is
invalid (`none`) when the ordinal exceeds the length of the year. -/
def snapLegacy (timestamp : Int) (g : GridSettings) : Option Int :=
  match g.unit with
  | .day =>
    if 1 < g.value then
      if ordinal1 timestamp / g.value * g.value + 1 ≤ daysInYear (theYear timestamp) then
        some (ordMillis (theYear timestamp) (ordinal1 timestamp / g.value * g.value + 1))
      else none
    else some (startOfDayM timestamp)
  | .month =>
    if 1 < g.value then
      some (mkMillis (theYear timestamp) ((theMonth timestamp - 1) / g.value * g.value + 1) 1 0)
    else some (startOfMonthM timestamp)
  | .year =>
    if 1 < g.value then
      some (mkMillis (theYear timestamp / (g.value : Int) * (g.value : Int)) 1 1 0)
    else some (startOfYearM timestamp)

/-- `snapToGrid(timestamp, gridSettings, startDate?)` of
`src/lib/timeline-utils.ts`, as the `toMillis()` of the returned object
(`gridAmount` of that object is always `gridSettings.value`, `unit` its unit).
`none` is an invalid date (NaN millis).  A `startDate` of `0` is falsy in
JavaScript and selects the legacy branch; in the start-date branch a `value`
of `0` produces a division by zero and an invalid date. -/
def snapToGridMillis (timestamp : Int) (g : GridSettings) (startDate : Option Int) : Option Int :=
  match startDate with
  | none => snapLegacy timestamp g
  | some s =>
    if s = 0 then snapLegacy timestamp g
    else if g.value = 0 then none
    else match g.unit with
      | .day =>
        some (s + (timestamp - s) / ((g.value : Int) * msPerDay) * ((g.value : Int) * msPerDay))
      | .month =>
        some (plusMonthsM s (⌊monthsDiffM timestamp s / ((g.value : Nat) : ℚ)⌋ * g.value))
      | .year =>
        some (plusYearsM s (⌊yearsDiffM timestamp s / ((g.value : Nat) : ℚ)⌋ * g.value))

/-- JavaScript `Math.round`: floor of `x + 1/2` (half-up). -/
def jsRound (x : ℚ) : Int := ⌊x + 1 / 2⌋

/-- `TimelineIntervalV2` of `src/types/timeline.ts` / `TimelineContext.tsx`.
`startTime` is a JavaScript number: integer milliseconds until a scale by a
fractional factor stores a fractional value, so it is a rational here.
`metadata` is opaque to the core and modelled as an optional label. -/
structure TimelineIntervalV2 where
  id : String
  startTime : ℚ
  gridUnit : GridIntervalUnit
  gridAmount : Int
  metadata : Option String
deriving DecidableEq, Repr

/-- Luxon `DateTime.fromMillis(t).plus({[unit]: n}).toMillis()`. -/
def advanceMillis (t : Int) (u : GridIntervalUnit) (n : Int) : Int :=
  match u with
  | .day => plusDaysM t n
  | .month => plusMonthsM t n
  | .year => plusYearsM t n

/-- `getIntervalEndTime` (both `timeline-utils-v2` and the copy in
`TimelineContext.tsx`): the start advanced by `gridAmount` counts of
`gridUnit`; a fractional part of the start timestamp rides through Luxon's
calendar fields unchanged. -/
def getIntervalEndTime (interval : TimelineIntervalV2) : ℚ :=
  (advanceMillis ⌊interval.startTime⌋ interval.gridUnit interval.gridAmount : ℚ)
    + (interval.startTime - ⌊interval.startTime⌋)

/-- `getIntervalDuration` of `timeline-utils-v2`. -/
def getIntervalDuration (interval : TimelineIntervalV2) : ℚ :=
  getIntervalEndTime interval - interval.startTime

/-- `moveIntervalV2` of `timeline-utils-v2`: snaps the new start with the
grid settings (no start date is passed), then rebuilds the interval with
`startTime := snapped.toMillis()`, `gridUnit := gridSettings.unit` and
`gridAmount := snapped.gridAmount`, where the object `snapToGrid` returns
carries `gridAmount = gridSettings.value`.  `none` when the snap is invalid. -/
def moveIntervalV2 (interval : TimelineIntervalV2) (newStartTime : Int)
    (gridSettings : GridSettings) : Option TimelineIntervalV2 :=
  (snapToGridMillis newStartTime gridSettings none).map fun snappedMillis =>
    { interval with
      startTime := (snappedMillis : ℚ)
      gridUnit := gridSettings.unit
      gridAmount := (gridSettings.value : Int) }

/-- `resizeIntervalV2` of `timeline-utils-v2`. -/
def resizeIntervalV2 (interval : TimelineIntervalV2) (newGridAmount : Int) :
    TimelineIntervalV2 :=
  { interval with gridAmount := max 1 newGridAmount }

/-- `createIntervalV2` of `timeline-utils-v2`; the random UUID is a
parameter. -/
def createIntervalV2 (newId : String) (startTime : ℚ) (gridUnit : GridIntervalUnit)
    (gridAmount : Int) (metadata : Option String) : TimelineIntervalV2 :=
  { id := newId
    startTime := startTime
    gridUnit := gridUnit
    gridAmount := max 1 gridAmount
    metadata := metadata }

/-- The legacy `TimelineInterval` (explicit `endTime`). -/
structure TimelineInterval where
  id : String
  startTime : Int
  endTime : Int
  metadata : Option String
deriving DecidableEq, Repr

/-- `convertToV2Interval` of `timeline-utils-v2`: the grid amount is the
rounded duration in grid units (day: fixed-length days; month/year: Luxon
`diff`), clamped to at least 1. -/
def convertToV2Interval (legacyInterval : TimelineInterval) (gridSettings : GridSettings) :
    TimelineIntervalV2 :=
  let gridAmount : Int :=
    match gridSettings.unit with
    | .day => jsRound (((legacyInterval.endTime - legacyInterval.startTime : Int) : ℚ)
        / ((24 * 60 * 60 * 1000 : Int) : ℚ))
    | .month => jsRound (monthsDiffM legacyInterval.endTime legacyInterval.startTime)
    | .year => jsRound (yearsDiffM legacyInterval.endTime legacyInterval.startTime)
  { id := legacyInterval.id
    startTime := (legacyInterval.startTime : ℚ)
    gridUnit := gridSettings.unit
    gridAmount := max 1 gridAmount
    metadata := legacyInterval.metadata }

/-- `Partial<TimelineIntervalV2>` as dispatched with UPDATE_INTERVAL. -/
structure IntervalUpdates where
  newId : Option String := none
  newStartTime : Option ℚ := none
  newGridUnit : Option GridIntervalUnit := none
  newGridAmount : Option Int := none
  newMetadata : Option (Option String) := none
deriving DecidableEq, Repr

/-- The spread `{ ...interval, ...updates }`. -/
def applyUpdates (interval : TimelineIntervalV2) (u : IntervalUpdates) : TimelineIntervalV2 :=
  { id := u.newId.getD interval.id
    startTime := u.newStartTime.getD interval.startTime
    gridUnit := u.newGridUnit.getD interval.gridUnit
    gridAmount := u.newGridAmount.getD interval.gridAmount
    metadata := u.newMetadata.getD interval.metadata }

/-- `TimelineState` of `TimelineContext.tsx`; the JavaScript `Set` of
selected ids is insertion-ordered and duplicate-free, modelled as the list
of its elements. -/
structure TimelineState where
  intervals : List TimelineIntervalV2
  selectedIntervalIds : List String
  gridSettings : GridSettings
  clipboard : List TimelineIntervalV2
deriving DecidableEq, Repr

/-- `TimelineAction` of `TimelineContext.tsx`. -/
inductive TimelineAction
  | addInterval (payload : TimelineIntervalV2)
  | updateInterval (id : String) (updates : IntervalUpdates)
  | deleteInterval (id : String)
  | setIntervals (payload : List TimelineIntervalV2)
  | setSelectedIntervals (payload : List String)
  | clearSelection
  | setGridSettings (payload : GridSettings)
  | setClipboard (payload : List TimelineIntervalV2)
  | clearClipboard
deriving DecidableEq, Repr

/-- `timelineReducer` of `TimelineContext.tsx`.  `new Set(array)` keeps the
first occurrence of each element, i.e. `List.eraseDups`. -/
def timelineReducer (state : TimelineState) (action : TimelineAction) : TimelineState :=
  match action with
  | .addInterval payload =>
    { state with intervals := state.intervals ++ [payload] }
  | .updateInterval id updates =>
    { state with intervals := state.intervals.map fun interval =>
        if interval.id = id then applyUpdates interval updates else interval }
  | .deleteInterval id =>
    { state with
      intervals := state.intervals.filter fun interval => interval.id ≠ id
      selectedIntervalIds := state.selectedIntervalIds.filter fun x => x ≠ id }
  | .setIntervals payload => { state with intervals := payload }
  | .setSelectedIntervals payload => { state with selectedIntervalIds := payload.eraseDups }
  | .clearSelection => { state with selectedIntervalIds := [] }
  | .setGridSettings payload => { state with gridSettings := payload }
  | .setClipboard payload => { state with clipboard := payload }
  | .clearClipboard => { state with clipboard := [] }

/-- `getMillisecondsPerGridUnit` of `TimelineContext.tsx`: day cells have a
fixed length; month/year cells are measured by Luxon from the current
instant `now` (`DateTime.now()`). -/
def getMillisecondsPerGridUnit (now : Int) (settings : GridSettings) : Int :=
  match settings.unit with
  | .day => (settings.value : Int) * (24 * 60 * 60 * 1000)
  | .month => plusMonthsM now settings.value - now
  | .year => plusYearsM now settings.value - now

/-- `handlePaste` of `TimelineContext.tsx`: nothing on an empty clipboard;
otherwise one ADD_INTERVAL per clipboard entry, with a fresh id (`freshIds k`
stands for the k-th `generateUUID()`) and the start shifted by one grid cell,
then CLEAR_CLIPBOARD. -/
def handlePaste (state : TimelineState) (now : Int) (freshIds : Nat → String) :
    TimelineState :=
  if state.clipboard = [] then state
  else
    let offset := getMillisecondsPerGridUnit now state.gridSettings
    timelineReducer
      (state.clipboard.enum.foldl
        (fun st p => timelineReducer st (.addInterval
          { p.2 with id := freshIds p.1, startTime := p.2.startTime + (offset : ℚ) }))
        state)
      .clearClipboard

/-- `handleMultiply(factor)` of `TimelineContext.tsx`: scale every selected
interval about the minimum selected start; each update stores the scaled
start and a grid amount recomputed from the scaled duration and the current
grid-cell length. -/
def handleMultiply (state : TimelineState) (now : Int) (factor : ℚ) : TimelineState :=
  let selectedIntervals := state.intervals.filter
    fun interval => state.selectedIntervalIds.contains interval.id
  if selectedIntervals = [] then state
  else
    let minStartTime := (selectedIntervals.map (·.startTime)).foldl min
      ((selectedIntervals.map (·.startTime)).headD 0)
    selectedIntervals.foldl
      (fun st interval =>
        let newStartTime := minStartTime + (interval.startTime - minStartTime) * factor
        let newEndTime := minStartTime + (getIntervalEndTime interval - minStartTime) * factor
        let newGridAmount := max 1 (jsRound ((newEndTime - newStartTime)
          / ((getMillisecondsPerGridUnit now state.gridSettings : Int) : ℚ)))
        timelineReducer st (.updateInterval interval.id
          { newStartTime := some newStartTime, newGridAmount := some newGridAmount }))
      state

/-- `TimelineBounds` of `src/types/timeline.ts`. -/
structure TimelineBounds where
  minDate : Int
  maxDate : Int
deriving DecidableEq, Repr

/-- `timestampToPixels` of `src/lib/timeline-utils.ts`. -/
def timestampToPixels (timestamp minDate : Int) (pixelsPerMs : ℚ) : ℚ :=
  ((timestamp - minDate : Int) : ℚ) * pixelsPerMs

/-- `dt.startOf(unit)`. -/
def startOfUnitM (t : Int) (u : GridIntervalUnit) : Int :=
  match u with
  | .day => startOfDayM t
  | .month => startOfMonthM t
  | .year => startOfYearM t

/-- One grid line of `generateGridLines` (the display label carries no
logic and is omitted). -/
structure GridLine where
  position : ℚ
  timestamp : Int
  isMajor : Bool
deriving DecidableEq, Repr

def gridLineAt (cur : Int) (bounds : TimelineBounds) (g : GridSettings)
    (pixelsPerMs : ℚ) : GridLine :=
  { position := timestampToPixels cur bounds.minDate pixelsPerMs
    timestamp := cur
    isMajor := match g.unit with
      | .day => theDay cur == 1
      | .month => theMonth cur == 1
      | .year => true }

/-- The while-loop of `generateGridLines` in `src/lib/timeline-utils.ts`
(also the identical loops in `IntervalGrid.tsx`), with an explicit fuel
counter: the source loop has no iteration cap, so `none` means the loop is
still running after `fuel` iterations. -/
def generateGridLinesFuel (bounds : TimelineBounds) (g : GridSettings) (pixelsPerMs : ℚ) :
    Nat → Int → List GridLine → Option (List GridLine)
  | 0, _, _ => none
  | fuel + 1, cur, acc =>
    if cur ≤ bounds.maxDate then
      generateGridLinesFuel bounds g pixelsPerMs fuel
        (advanceMillis cur g.unit g.value)
        (acc ++ [gridLineAt cur bounds g pixelsPerMs])
    else some acc

/-- `generateGridLines`: start at `startOf(unit)` of the lower bound and walk
by `value` units while within the bounds. -/
def generateGridLines (bounds : TimelineBounds) (g : GridSettings) (pixelsPerMs : ℚ)
    (fuel : Nat) : Option (List GridLine) :=
  generateGridLinesFuel bounds g pixelsPerMs fuel (startOfUnitM bounds.minDate g.unit) []

/-- The paste placement the claim (spec §4.5) describes: anchor at the
maximum end time over the pasted set, each entry offset by its distance from
the set's minimum start. -/
def pasteClaimStart (clipboard : List TimelineIntervalV2) (c : TimelineIntervalV2) : ℚ :=
  let ends := clipboard.map getIntervalEndTime
  let starts := clipboard.map (·.startTime)
  ends.foldl max (ends.headD 0) + (c.startTime - starts.foldl min (starts.headD 0))

/-- The `minStartTime` anchor `handleMultiply` computes: the running minimum
of the selected start times, seeded with the first of them (0 on an empty
selection). -/
def multiplyAnchor (state : TimelineState) : ℚ :=
  let selectedIntervals := state.intervals.filter
    fun interval => state.selectedIntervalIds.contains interval.id
  (selectedIntervals.map (·.startTime)).foldl min
    ((selectedIntervals.map (·.startTime)).headD 0)

/-- The update record `handleMultiply` dispatches for one selected
interval. -/
def multiplyUpdate (state : TimelineState) (now : Int) (factor : ℚ)
    (interval : TimelineIntervalV2) : IntervalUpdates :=
  let newStartTime := multiplyAnchor state
    + (interval.startTime - multiplyAnchor state) * factor
  let newEndTime := multiplyAnchor state
    + (getIntervalEndTime interval - multiplyAnchor state) * factor
  { newStartTime := some newStartTime
    newGridAmount := some (max 1 (jsRound ((newEndTime - newStartTime)
      / ((getMillisecondsPerGridUnit now state.gridSettings : Int) : ℚ)))) }

/-- The grid amount the claim (spec §4.5) prescribes for a scaled interval:
`max(1, round(gridAmount * f))`. -/
def multiplyClaimGridAmount (interval : TimelineIntervalV2) (factor : ℚ) : Int :=
  max 1 (jsRound ((interval.gridAmount : ℚ) * factor))

theorem daysInMonthB_pos (leap : Bool) (m : Nat) :
    28 ≤ daysInMonthB leap m ∧ daysInMonthB leap m ≤ 31 := by
  unfold daysInMonthB
  split
  · cases leap <;> simp
  · split <;> simp

theorem daysInYear_bounds (y : Int) : 365 ≤ daysInYear y ∧ daysInYear y ≤ 366 := by
  unfold daysInYear daysInYearB
  cases isLeapYear y <;> simp

theorem daysBeforeMonthB_mono_all :
    ∀ leap : Bool, ∀ c < 14, ∀ a ≤ c,
      daysBeforeMonthB leap a ≤ daysBeforeMonthB leap c := by decide

theorem daysBeforeMonthB_succ_all :
    ∀ leap : Bool, ∀ m < 13, 1 ≤ m →
      daysBeforeMonthB leap (m + 1) = daysBeforeMonthB leap m + daysInMonthB leap m := by
  decide

theorem daysBeforeMonthB_13 :
    ∀ leap : Bool, daysBeforeMonthB leap 13 = daysInYearB leap := by decide

theorem daysBeforeMonth_succ (y : Int) (m : Nat) (h1 : 1 ≤ m) (h2 : m ≤ 12) :
    daysBeforeMonth y (m + 1) = daysBeforeMonth y m + daysInMonth y m :=
  daysBeforeMonthB_succ_all (isLeapYear y) m (by omega) h1

theorem daysBeforeMonth_add_le (y : Int) (m : Nat) (h1 : 1 ≤ m) (h2 : m ≤ 12) :
    daysBeforeMonth y m + daysInMonth y m ≤ daysInYear y := by
  have h3 := daysBeforeMonth_succ y m h1 h2
  have h4 := daysBeforeMonthB_mono_all (isLeapYear y) 13 (by omega) (m + 1) (by omega)
  have h5 := daysBeforeMonthB_13 (isLeapYear y)
  unfold daysBeforeMonth daysInYear at *
  omega

theorem sumDaysUp_shift (n : Nat) : ∀ y : Int,
    sumDaysUp y (n + 1) = sumDaysUp y n + daysInYear (y + n) := by
  induction n with
  | zero => intro y; simp [sumDaysUp]
  | succ n ih =>
    intro y
    have h1 : sumDaysUp y (n + 1 + 1) = daysInYear y + sumDaysUp (y + 1) (n + 1) := rfl
    have h2 : sumDaysUp y (n + 1) = daysInYear y + sumDaysUp (y + 1) n := rfl
    rw [h1, ih (y + 1), h2]
    have : y + 1 + (n : Int) = y + (n + 1 : Nat) := by push_cast; ring
    rw [this]
    omega

theorem sumDaysDown_shift (n : Nat) : ∀ y : Int,
    sumDaysDown y (n + 1) = sumDaysDown y n + daysInYear (y - (n + 1)) := by
  induction n with
  | zero => intro y; simp [sumDaysDown]
  | succ n ih =>
    intro y
    have h1 : sumDaysDown y (n + 1 + 1) = daysInYear (y - 1) + sumDaysDown (y - 1) (n + 1) := rfl
    have h2 : sumDaysDown y (n + 1) = daysInYear (y - 1) + sumDaysDown (y - 1) n := rfl
    rw [h1, ih (y - 1), h2]
    push_cast
    have harg : y - 1 - ((n : Int) + 1) = y - ((n : Int) + 1 + 1) := by ring
    rw [harg]
    omega

theorem sumDaysUp_ge (y : Int) : ∀ n : Nat, 365 * n ≤ sumDaysUp y n := by
  intro n
  induction n generalizing y with
  | zero => simp [sumDaysUp]
  | succ n ih =>
    have h1 : sumDaysUp y (n + 1) = daysInYear y + sumDaysUp (y + 1) n := rfl
    have h2 := ih (y + 1)
    have h3 := daysInYear_bounds y
    omega

theorem sumDaysDown_ge (y : Int) : ∀ n : Nat, 365 * n ≤ sumDaysDown y n := by
  intro n
  induction n generalizing y with
  | zero => simp [sumDaysDown]
  | succ n ih =>
    have h1 : sumDaysDown y (n + 1) = daysInYear (y - 1) + sumDaysDown (y - 1) n := rfl
    have h2 := ih (y - 1)
    have h3 := daysInYear_bounds (y - 1)
    omega

theorem daysToYearStart_succ (y : Int) :
    daysToYearStart (y + 1) = daysToYearStart y + daysInYear y := by
  unfold daysToYearStart epochYear
  rcases lt_trichotomy y 1969 with h | h | h
  · have h1 : ¬ (1970 : Int) ≤ y := by omega
    have h2 : ¬ (1970 : Int) ≤ y + 1 := by omega
    simp only [if_neg h1, if_neg h2]
    have h3 : (1970 - y).toNat = (1970 - (y + 1)).toNat + 1 := by omega
    rw [h3, sumDaysDown_shift]
    have h4 : (1970 : Int) - (((1970 - (y + 1)).toNat : Int) + 1) = y := by omega
    rw [h4]
    push_cast
    omega
  · subst h
    have h1 : ¬ (1970 : Int) ≤ 1969 := by norm_num
    have h2 : (1970 : Int) ≤ 1969 + 1 := by norm_num
    rw [if_neg h1, if_pos h2]
    have h3 : ((1969 : Int) + 1 - 1970).toNat = 0 := by norm_num
    have h4 : ((1970 : Int) - 1969).toNat = 1 := by norm_num
    rw [h3, h4]
    have h5 : sumDaysDown 1970 1 = daysInYear 1969 := by decide
    have h6 : sumDaysUp 1970 0 = 0 := rfl
    omega
  · have h1 : (1970 : Int) ≤ y := by omega
    have h2 : (1970 : Int) ≤ y + 1 := by omega
    simp only [if_pos h1, if_pos h2]
    have h3 : (y + 1 - 1970).toNat = (y - 1970).toNat + 1 := by omega
    rw [h3, sumDaysUp_shift]
    have h4 : (1970 : Int) + ((y - 1970).toNat : Nat) = y := by omega
    rw [h4]
    omega

theorem daysToYearStart_gap : ∀ (n : Nat) (y : Int),
    daysToYearStart y + 365 * n ≤ daysToYearStart (y + n) := by
  intro n
  induction n with
  | zero => intro y; simp
  | succ n ih =>
    intro y
    have h1 := ih y
    have h2 := daysToYearStart_succ (y + n)
    have h3 := daysInYear_bounds (y + n)
    have h4 : y + ((n : Int) + 1) = y + (n : Int) + 1 := by ring
    push_cast
    rw [h4]
    push_cast at h1
    omega

theorem yearOfDaysUpF_eq : ∀ (n fuel : Nat) (y : Int) (doy : Nat), n ≤ fuel →
    doy < daysInYear (y + n) →
    yearOfDaysUpF fuel y (sumDaysUp y n + doy) = (y + (n : Int), doy) := by
  intro n
  induction n with
  | zero =>
    intro fuel y doy _ hd
    simp only [Nat.cast_zero, add_zero] at hd ⊢
    cases fuel with
    | zero => simp [yearOfDaysUpF, sumDaysUp]
    | succ f => simp [yearOfDaysUpF, sumDaysUp, hd]
  | succ n ih =>
    intro fuel y doy hf hd
    cases fuel with
    | zero => omega
    | succ f =>
      have hpeel : sumDaysUp y (n + 1) = daysInYear y + sumDaysUp (y + 1) n := rfl
      have hcast : y + 1 + (n : Int) = y + ((n : Int) + 1) := by ring
      have hd2 : doy < daysInYear (y + 1 + (n : Int)) := by
        rw [hcast]; push_cast at hd; exact hd
      have hstep : yearOfDaysUpF (f + 1) y (sumDaysUp y (n + 1) + doy)
          = yearOfDaysUpF f (y + 1) (sumDaysUp y (n + 1) + doy - daysInYear y) := by
        have hge : ¬ (sumDaysUp y (n + 1) + doy < daysInYear y) := by
          rw [hpeel]; omega
        simp [yearOfDaysUpF, hge]
      rw [hstep]
      have harg : sumDaysUp y (n + 1) + doy - daysInYear y = sumDaysUp (y + 1) n + doy := by
        rw [hpeel]; omega
      rw [harg, ih f (y + 1) doy (by omega) hd2, hcast]
      norm_cast

theorem sumDaysDown_last : ∀ (n : Nat) (y : Int),
    daysInYear (y - ((n : Int) + 1)) ≤ sumDaysDown y (n + 1) := by
  intro n
  induction n with
  | zero => intro y; simp [sumDaysDown]
  | succ n ih =>
    intro y
    have h1 := sumDaysDown_shift (n + 1) y
    push_cast at h1 ⊢
    omega

theorem yearOfDaysDownF_eq : ∀ (n fuel : Nat) (y : Int) (doy : Nat), n ≤ fuel →
    doy < daysInYear (y - ((n : Int) + 1)) →
    yearOfDaysDownF fuel y (sumDaysDown y (n + 1) - doy) = (y - ((n : Int) + 1), doy) := by
  intro n
  induction n with
  | zero =>
    intro fuel y doy _ hd
    simp only [Nat.cast_zero, zero_add] at hd ⊢
    have hone : sumDaysDown y 1 = daysInYear (y - 1) := by
      show daysInYear (y - 1) + sumDaysDown (y - 1) 0 = daysInYear (y - 1)
      simp [sumDaysDown]
    rw [hone]
    cases fuel with
    | zero =>
      show (y - 1, daysInYear (y - 1) - (daysInYear (y - 1) - doy)) = (y - 1, doy)
      have : daysInYear (y - 1) - (daysInYear (y - 1) - doy) = doy := by omega
      rw [this]
    | succ f =>
      have hle : daysInYear (y - 1) - doy ≤ daysInYear (y - 1) := by omega
      have : daysInYear (y - 1) - (daysInYear (y - 1) - doy) = doy := by omega
      simp [yearOfDaysDownF, hle, this]
  | succ n ih =>
    intro fuel y doy hf hd
    cases fuel with
    | zero => omega
    | succ f =>
      have hpeel : sumDaysDown y (n + 1 + 1) = daysInYear (y - 1) + sumDaysDown (y - 1) (n + 1) := rfl
      have hcast : y - 1 - ((n : Int) + 1) = y - (((n : Int) + 1) + 1) := by ring
      have hd2 : doy < daysInYear (y - 1 - ((n : Int) + 1)) := by
        rw [hcast]; push_cast at hd ⊢; exact hd
      have hlast : daysInYear (y - 1 - ((n : Int) + 1)) ≤ sumDaysDown (y - 1) (n + 1) :=
        sumDaysDown_last n (y - 1)
      have hgt : ¬ (sumDaysDown y (n + 1 + 1) - doy ≤ daysInYear (y - 1)) := by
        rw [hpeel]; omega
      have hstep : yearOfDaysDownF (f + 1) y (sumDaysDown y (n + 1 + 1) - doy)
          = yearOfDaysDownF f (y - 1) (sumDaysDown y (n + 1 + 1) - doy - daysInYear (y - 1)) := by
        simp [yearOfDaysDownF, hgt]
      rw [hstep]
      have harg : sumDaysDown y (n + 1 + 1) - doy - daysInYear (y - 1)
          = sumDaysDown (y - 1) (n + 1) - doy := by
        rw [hpeel]; omega
      rw [harg, ih f (y - 1) doy (by omega) hd2, hcast]
      norm_cast

theorem yearDoyOfDays_mk (y : Int) (doy : Nat) (hd : doy < daysInYear y) :
    yearDoyOfDays (daysToYearStart y + doy) = (y, doy) := by
  rcases le_or_lt epochYear y with hy | hy
  · have hn : y = epochYear + ((y - epochYear).toNat : Int) := by
      unfold epochYear at *; omega
    set n := (y - epochYear).toNat with hdefn
    have hdy : daysToYearStart y = (sumDaysUp epochYear n : Int) := by
      unfold daysToYearStart
      rw [if_pos hy]
    have hz : daysToYearStart y + (doy : Int) = ((sumDaysUp epochYear n + doy : Nat) : Int) := by
      rw [hdy]; push_cast; ring_nf
    have hznn : (0 : Int) ≤ daysToYearStart y + doy := by rw [hz]; positivity
    unfold yearDoyOfDays
    rw [if_pos hznn, hz, Int.toNat_natCast]
    have hfuel : n ≤ sumDaysUp epochYear n + doy := by
      have := sumDaysUp_ge epochYear n; omega
    have hd2 : doy < daysInYear (epochYear + (n : Int)) := by rw [← hn]; exact hd
    rw [yearOfDaysUpF_eq n (sumDaysUp epochYear n + doy) epochYear doy hfuel hd2, ← hn]
  · have hn : y = epochYear - (((epochYear - y).toNat : Int)) := by
      unfold epochYear at *; omega
    have hpos : 1 ≤ (epochYear - y).toNat := by unfold epochYear at *; omega
    set k := (epochYear - y).toNat with hdefk
    obtain ⟨n, hk⟩ : ∃ n, k = n + 1 := ⟨k - 1, by omega⟩
    have hyn : y = epochYear - ((n : Int) + 1) := by
      rw [hn, hk]; push_cast; ring
    have hdy : daysToYearStart y = -(sumDaysDown epochYear (n + 1) : Int) := by
      unfold daysToYearStart
      rw [if_neg (by omega), ← hk, hdefk]
    have hlast : daysInYear (epochYear - ((n : Int) + 1)) ≤ sumDaysDown epochYear (n + 1) :=
      sumDaysDown_last n epochYear
    have hdbound : doy < daysInYear (epochYear - ((n : Int) + 1)) := by rw [← hyn]; exact hd
    have hz : daysToYearStart y + (doy : Int)
        = -(((sumDaysDown epochYear (n + 1) - doy : Nat)) : Int) := by
      rw [hdy]; omega
    have hzneg : ¬ (0 : Int) ≤ daysToYearStart y + doy := by
      rw [hz]; omega
    unfold yearDoyOfDays
    rw [if_neg hzneg, hz]
    rw [neg_neg, Int.toNat_natCast]
    have hfuel : n ≤ sumDaysDown epochYear (n + 1) - doy := by
      have := sumDaysDown_ge epochYear (n + 1)
      have hdok : doy ≤ 366 := by
        have := daysInYear_bounds (epochYear - ((n : Int) + 1)); omega
      omega
    rw [yearOfDaysDownF_eq n (sumDaysDown epochYear (n + 1) - doy) epochYear doy hfuel hdbound,
      ← hyn]

theorem yearOfDaysUpF_inv : ∀ (fuel : Nat) (y : Int) (d : Nat), d < 365 * fuel + 365 →
    ∃ n : Nat, n ≤ fuel ∧ sumDaysUp y n ≤ d ∧ d - sumDaysUp y n < daysInYear (y + (n : Int)) ∧
      yearOfDaysUpF fuel y d = (y + (n : Int), d - sumDaysUp y n) := by
  intro fuel
  induction fuel with
  | zero =>
    intro y d hd
    refine ⟨0, le_refl 0, by simp [sumDaysUp], ?_, by simp [yearOfDaysUpF, sumDaysUp]⟩
    have := daysInYear_bounds (y + ((0 : Nat) : Int))
    simp only [sumDaysUp]
    omega
  | succ f ih =>
    intro y d hd
    by_cases hlt : d < daysInYear y
    · refine ⟨0, by omega, by simp [sumDaysUp], ?_, by simp [yearOfDaysUpF, hlt, sumDaysUp]⟩
      simp only [sumDaysUp, Nat.cast_zero, add_zero]
      omega
    · have hge : daysInYear y ≤ d := by omega
      have hbound : d - daysInYear y < 365 * f + 365 := by
        have := daysInYear_bounds y; omega
      obtain ⟨n, hn, hle, hrem, heq⟩ := ih (y + 1) (d - daysInYear y) hbound
      refine ⟨n + 1, by omega, ?_, ?_, ?_⟩
      · have hpeel : sumDaysUp y (n + 1) = daysInYear y + sumDaysUp (y + 1) n := rfl
        omega
      · have hpeel : sumDaysUp y (n + 1) = daysInYear y + sumDaysUp (y + 1) n := rfl
        have hcast : y + ((n : Int) + 1) = y + 1 + (n : Int) := by ring
        push_cast
        rw [hcast]
        omega
      · have hstep : yearOfDaysUpF (f + 1) y d = yearOfDaysUpF f (y + 1) (d - daysInYear y) := by
          simp [yearOfDaysUpF, hlt]
        rw [hstep, heq]
        have hpeel : sumDaysUp y (n + 1) = daysInYear y + sumDaysUp (y + 1) n := rfl
        have hcast : y + 1 + (n : Int) = y + ((n + 1 : Nat) : Int) := by push_cast; ring
        rw [hcast]
        have harg : d - daysInYear y - sumDaysUp (y + 1) n = d - sumDaysUp y (n + 1) := by
          omega
        rw [harg]

theorem yearOfDaysDownF_inv : ∀ (fuel : Nat) (y : Int) (d : Nat), 1 ≤ d →
    d ≤ 365 * fuel + 365 →
    ∃ n : Nat, n ≤ fuel ∧ d ≤ sumDaysDown y (n + 1) ∧
      sumDaysDown y (n + 1) - d < daysInYear (y - ((n : Int) + 1)) ∧
      yearOfDaysDownF fuel y d = (y - ((n : Int) + 1), sumDaysDown y (n + 1) - d) := by
  intro fuel
  induction fuel with
  | zero =>
    intro y d hd1 hd2
    have hone : sumDaysDown y 1 = daysInYear (y - 1) := by
      show daysInYear (y - 1) + sumDaysDown (y - 1) 0 = daysInYear (y - 1)
      simp [sumDaysDown]
    have hb := daysInYear_bounds (y - 1)
    refine ⟨0, le_refl 0, ?_, ?_, ?_⟩
    · rw [hone]; omega
    · simp only [Nat.cast_zero, zero_add]; rw [hone]; omega
    · show (y - 1, daysInYear (y - 1) - d) = _
      simp only [Nat.cast_zero, zero_add]
      rw [hone]
  | succ f ih =>
    intro y d hd1 hd2
    by_cases hle : d ≤ daysInYear (y - 1)
    · have hone : sumDaysDown y 1 = daysInYear (y - 1) := by
        show daysInYear (y - 1) + sumDaysDown (y - 1) 0 = daysInYear (y - 1)
        simp [sumDaysDown]
      refine ⟨0, by omega, ?_, ?_, ?_⟩
      · rw [hone]; omega
      · simp only [Nat.cast_zero, zero_add]; rw [hone]; omega
      · have hstep : yearOfDaysDownF (f + 1) y d = (y - 1, daysInYear (y - 1) - d) := by
          simp [yearOfDaysDownF, hle]
        rw [hstep]
        simp only [Nat.cast_zero, zero_add]
        rw [hone]
    · have hgt : daysInYear (y - 1) < d := by omega
      have hb := daysInYear_bounds (y - 1)
      obtain ⟨n, hn, hle2, hrem, heq⟩ := ih (y - 1) (d - daysInYear (y - 1)) (by omega) (by omega)
      have hpeel : sumDaysDown y (n + 1 + 1) = daysInYear (y - 1) + sumDaysDown (y - 1) (n + 1) := rfl
      refine ⟨n + 1, by omega, by omega, ?_, ?_⟩
      · have hcast : y - (((n + 1 : Nat) : Int) + 1) = y - 1 - ((n : Int) + 1) := by
          push_cast; ring
        rw [hcast]
        omega
      · have hstep : yearOfDaysDownF (f + 1) y d
            = yearOfDaysDownF f (y - 1) (d - daysInYear (y - 1)) := by
          simp [yearOfDaysDownF, hle]
        rw [hstep, heq]
        have hcast : y - 1 - ((n : Int) + 1) = y - (((n + 1 : Nat) : Int) + 1) := by
          push_cast; ring
        rw [hcast]
        have harg : sumDaysDown (y - 1) (n + 1) - (d - daysInYear (y - 1))
            = sumDaysDown y (n + 1 + 1) - d := by
          omega
        rw [harg]

theorem yearDoyOfDays_inv (z : Int) :
    (yearDoyOfDays z).2 < daysInYear (yearDoyOfDays z).1 ∧
      daysToYearStart (yearDoyOfDays z).1 + ((yearDoyOfDays z).2 : Int) = z := by
  unfold yearDoyOfDays
  by_cases hz : 0 ≤ z
  · rw [if_pos hz]
    obtain ⟨n, hn, hle, hrem, heq⟩ :=
      yearOfDaysUpF_inv z.toNat epochYear z.toNat (by omega)
    rw [heq]
    constructor
    · exact hrem
    · have hdy : daysToYearStart (epochYear + (n : Int)) = (sumDaysUp epochYear n : Int) := by
        unfold daysToYearStart
        rw [if_pos (by omega)]
        have : (epochYear + (n : Int) - epochYear).toNat = n := by omega
        rw [this]
      rw [hdy]
      omega
  · rw [if_neg hz]
    have hd1 : 1 ≤ (-z).toNat := by omega
    obtain ⟨n, hn, hle, hrem, heq⟩ :=
      yearOfDaysDownF_inv (-z).toNat epochYear (-z).toNat hd1 (by omega)
    rw [heq]
    constructor
    · exact hrem
    · have hdy : daysToYearStart (epochYear - ((n : Int) + 1))
          = -(sumDaysDown epochYear (n + 1) : Int) := by
        unfold daysToYearStart
        rw [if_neg (by omega)]
        have : (epochYear - (epochYear - ((n : Int) + 1))).toNat = n + 1 := by omega
        rw [this]
      rw [hdy]
      omega

theorem monthOfDoyF_eq : ∀ (fuel : Nat) (y : Int) (k m d : Nat), 1 ≤ k → k ≤ m → m ≤ 12 →
    m ≤ k + fuel → 1 ≤ d → d ≤ daysInMonth y m →
    monthOfDoyF fuel y k ((daysBeforeMonth y m - daysBeforeMonth y k) + (d - 1)) = (m, d) := by
  intro fuel
  induction fuel with
  | zero =>
    intro y k m d hk hkm hm hfuel hd1 hd2
    have hkm2 : k = m := by omega
    subst hkm2
    show (k, daysBeforeMonth y k - daysBeforeMonth y k + (d - 1) + 1) = (k, d)
    have : daysBeforeMonth y k - daysBeforeMonth y k + (d - 1) + 1 = d := by omega
    rw [this]
  | succ f ih =>
    intro y k m d hk hkm hm hfuel hd1 hd2
    by_cases hkm2 : k = m
    · subst hkm2
      have hlt : daysBeforeMonth y k - daysBeforeMonth y k + (d - 1) < daysInMonth y k := by
        omega
      have : daysBeforeMonth y k - daysBeforeMonth y k + (d - 1) + 1 = d := by omega
      simp only [monthOfDoyF, if_pos hlt, this]
    · have hklt : k < m := by omega
      have hsucc := daysBeforeMonth_succ y k hk (by omega)
      have hmono := daysBeforeMonthB_mono_all (isLeapYear y) m (by omega) (k + 1) (by omega)
      have hmono2 : daysBeforeMonth y (k + 1) ≤ daysBeforeMonth y m := hmono
      have hge : ¬ ((daysBeforeMonth y m - daysBeforeMonth y k) + (d - 1) < daysInMonth y k) := by
        omega
      have hstep : monthOfDoyF (f + 1) y k ((daysBeforeMonth y m - daysBeforeMonth y k) + (d - 1))
          = monthOfDoyF f y (k + 1)
            ((daysBeforeMonth y m - daysBeforeMonth y k) + (d - 1) - daysInMonth y k) := by
        simp [monthOfDoyF, hge]
      rw [hstep]
      have harg : (daysBeforeMonth y m - daysBeforeMonth y k) + (d - 1) - daysInMonth y k
          = (daysBeforeMonth y m - daysBeforeMonth y (k + 1)) + (d - 1) := by
        omega
      rw [harg]
      exact ih y (k + 1) m d (by omega) (by omega) hm (by omega) hd1 hd2

theorem monthOfDoyF_inv : ∀ (fuel : Nat) (y : Int) (k doy : Nat), 1 ≤ k → k + fuel ≤ 12 →
    doy < daysBeforeMonth y (k + fuel + 1) - daysBeforeMonth y k →
    ∃ m d : Nat, k ≤ m ∧ m ≤ k + fuel ∧ 1 ≤ d ∧ d ≤ daysInMonth y m ∧
      (daysBeforeMonth y m - daysBeforeMonth y k) + (d - 1) = doy ∧
      monthOfDoyF fuel y k doy = (m, d) := by
  intro fuel
  induction fuel with
  | zero =>
    intro y k doy hk hk12 hdoy
    simp only [Nat.add_zero] at hdoy hk12
    have hsucc := daysBeforeMonth_succ y k hk (by omega)
    refine ⟨k, doy + 1, le_refl k, by omega, by omega, by omega, by omega, rfl⟩
  | succ f ih =>
    intro y k doy hk hk12 hdoy
    by_cases hlt : doy < daysInMonth y k
    · refine ⟨k, doy + 1, le_refl k, by omega, by omega, by omega, by omega, ?_⟩
      simp [monthOfDoyF, hlt]
    · have hsucc := daysBeforeMonth_succ y k hk (by omega)
      have hbound : doy - daysInMonth y k
          < daysBeforeMonth y (k + 1 + f + 1) - daysBeforeMonth y (k + 1) := by
        have harr : k + 1 + f + 1 = k + (f + 1) + 1 := by omega
        rw [harr]
        omega
      obtain ⟨m, d, hm1, hm2, hd1, hd2, hsum, heq⟩ :=
        ih y (k + 1) (doy - daysInMonth y k) (by omega) (by omega) hbound
      refine ⟨m, d, by omega, by omega, hd1, hd2, ?_, ?_⟩
      · have hmono := daysBeforeMonthB_mono_all (isLeapYear y) m (by omega) (k + 1) hm1
        have hmono2 : daysBeforeMonth y (k + 1) ≤ daysBeforeMonth y m := hmono
        omega
      · have hstep : monthOfDoyF (f + 1) y k doy
            = monthOfDoyF f y (k + 1) (doy - daysInMonth y k) := by
          simp [monthOfDoyF, hlt]
        rw [hstep, heq]

theorem monthDayOfDoy_mk (y : Int) (m d : Nat) (hm1 : 1 ≤ m) (hm2 : m ≤ 12)
    (hd1 : 1 ≤ d) (hd2 : d ≤ daysInMonth y m) :
    monthDayOfDoy y (daysBeforeMonth y m + (d - 1)) = (m, d) := by
  have h1 : daysBeforeMonth y 1 = 0 := rfl
  have h := monthOfDoyF_eq 11 y 1 m d (le_refl 1) hm1 hm2 (by omega) hd1 hd2
  rw [h1] at h
  simpa [monthDayOfDoy] using h

theorem monthDayOfDoy_inv (y : Int) (doy : Nat) (hdoy : doy < daysInYear y) :
    ∃ m d : Nat, 1 ≤ m ∧ m ≤ 12 ∧ 1 ≤ d ∧ d ≤ daysInMonth y m ∧
      daysBeforeMonth y m + (d - 1) = doy ∧ monthDayOfDoy y doy = (m, d) := by
  have h1 : daysBeforeMonth y 1 = 0 := rfl
  have h13 : daysBeforeMonth y 13 = daysInYear y := by
    show daysBeforeMonthB (isLeapYear y) 13 = daysInYearB (isLeapYear y)
    exact daysBeforeMonthB_13 (isLeapYear y)
  have hb : doy < daysBeforeMonth y (1 + 11 + 1) - daysBeforeMonth y 1 := by
    norm_num
    omega
  obtain ⟨m, d, hm1, hm2, hd1, hd2, hsum, heq⟩ :=
    monthOfDoyF_inv 11 y 1 doy (le_refl 1) (by omega) hb
  exact ⟨m, d, hm1, by omega, hd1, hd2, by omega, heq⟩

theorem dayNumber_split (t : Int) :
    t = dayNumber t * msPerDay + msInDay t ∧ 0 ≤ msInDay t ∧ msInDay t < msPerDay := by
  unfold dayNumber msInDay msPerDay
  omega

theorem mkMillis_components (y : Int) (m d : Nat) (ms : Int)
    (hm1 : 1 ≤ m) (hm2 : m ≤ 12) (hd1 : 1 ≤ d) (hd2 : d ≤ daysInMonth y m)
    (hms1 : 0 ≤ ms) (hms2 : ms < msPerDay) :
    theYear (mkMillis y m d ms) = y ∧ theMonth (mkMillis y m d ms) = m ∧
      theDay (mkMillis y m d ms) = d ∧ msInDay (mkMillis y m d ms) = ms ∧
      theDoy0 (mkMillis y m d ms) = daysBeforeMonth y m + (d - 1) := by
  have hday : dayNumber (mkMillis y m d ms)
      = daysToYearStart y + ((daysBeforeMonth y m + (d - 1) : Nat) : Int) := by
    unfold dayNumber mkMillis msPerDay at *
    omega
  have hmsd : msInDay (mkMillis y m d ms) = ms := by
    unfold msInDay mkMillis msPerDay at *
    omega
  have hdoy : daysBeforeMonth y m + (d - 1) < daysInYear y := by
    have := daysBeforeMonth_add_le y m hm1 hm2
    omega
  have hyd : yearDoyOfDays (dayNumber (mkMillis y m d ms))
      = (y, daysBeforeMonth y m + (d - 1)) := by
    rw [hday]
    exact yearDoyOfDays_mk y (daysBeforeMonth y m + (d - 1)) hdoy
  have hyr : theYear (mkMillis y m d ms) = y := by
    unfold theYear
    rw [hyd]
  have hdoy0 : theDoy0 (mkMillis y m d ms) = daysBeforeMonth y m + (d - 1) := by
    unfold theDoy0
    rw [hyd]
  have hmd : monthDayOfDoy y (daysBeforeMonth y m + (d - 1)) = (m, d) :=
    monthDayOfDoy_mk y m d hm1 hm2 hd1 hd2
  have hmon : theMonth (mkMillis y m d ms) = m := by
    unfold theMonth
    rw [hyr, hdoy0, hmd]
  have hdd : theDay (mkMillis y m d ms) = d := by
    unfold theDay
    rw [hyr, hdoy0, hmd]
  exact ⟨hyr, hmon, hdd, hmsd, hdoy0⟩

theorem millis_reconstruct (t : Int) :
    1 ≤ theMonth t ∧ theMonth t ≤ 12 ∧ 1 ≤ theDay t ∧
      theDay t ≤ daysInMonth (theYear t) (theMonth t) ∧
      theDoy0 t < daysInYear (theYear t) ∧
      daysBeforeMonth (theYear t) (theMonth t) + (theDay t - 1) = theDoy0 t ∧
      mkMillis (theYear t) (theMonth t) (theDay t) (msInDay t) = t := by
  obtain ⟨hlt, hrec⟩ := yearDoyOfDays_inv (dayNumber t)
  have hlt2 : theDoy0 t < daysInYear (theYear t) := hlt
  obtain ⟨m, d, hm1, hm2, hd1, hd2, hsum, heq⟩ :=
    monthDayOfDoy_inv (theYear t) (theDoy0 t) hlt2
  have hmon : theMonth t = m := by unfold theMonth; rw [heq]
  have hday : theDay t = d := by unfold theDay; rw [heq]
  rw [hmon, hday]
  refine ⟨hm1, hm2, hd1, hd2, hlt2, hsum, ?_⟩
  unfold mkMillis
  rw [hsum]
  have hsplit := dayNumber_split t
  have : daysToYearStart (theYear t) + ((theDoy0 t : Nat) : Int) = dayNumber t := hrec
  rw [this]
  omega

theorem plusMonthsM_components (t n : Int) :
    theYear (plusMonthsM t n) = theYear t + (((theMonth t : Int) - 1) + n) / 12 ∧
      (theMonth (plusMonthsM t n) : Int) = (((theMonth t : Int) - 1) + n) % 12 + 1 ∧
      theDay (plusMonthsM t n)
        = min (theDay t) (daysInMonth (theYear (plusMonthsM t n)) (theMonth (plusMonthsM t n))) ∧
      msInDay (plusMonthsM t n) = msInDay t ∧
      1 ≤ theDay t := by
  obtain ⟨hm1, hm2, hd1, hd2, hdoy, hsum, hrec⟩ := millis_reconstruct t
  have hsplit := dayNumber_split t
  set total : Int := ((theMonth t : Int) - 1) + n with htot
  set y2 : Int := theYear t + total / 12 with hy2
  set m2 : Nat := (total % 12).toNat + 1 with hm2def
  have hm2b : 1 ≤ m2 ∧ m2 ≤ 12 := by
    have : 0 ≤ total % 12 ∧ total % 12 < 12 := by omega
    omega
  have hdb : 1 ≤ min (theDay t) (daysInMonth y2 m2) ∧
      min (theDay t) (daysInMonth y2 m2) ≤ daysInMonth y2 m2 := by
    have := daysInMonthB_pos (isLeapYear y2) m2
    unfold daysInMonth at *
    omega
  obtain ⟨cy, cm, cd, cms, _⟩ := mkMillis_components y2 m2
    (min (theDay t) (daysInMonth y2 m2)) (msInDay t) hm2b.1 hm2b.2 hdb.1 hdb.2
    (by omega) (by omega)
  have hpm : plusMonthsM t n = mkMillis y2 m2 (min (theDay t) (daysInMonth y2 m2)) (msInDay t) := rfl
  rw [hpm, cy, cm, cd, cms]
  refine ⟨rfl, by omega, rfl, rfl, hd1⟩

theorem plusYearsM_components (t n : Int) :
    theYear (plusYearsM t n) = theYear t + n ∧
      theMonth (plusYearsM t n) = theMonth t ∧
      theDay (plusYearsM t n)
        = min (theDay t) (daysInMonth (theYear t + n) (theMonth t)) ∧
      msInDay (plusYearsM t n) = msInDay t := by
  obtain ⟨hm1, hm2, hd1, hd2, hdoy, hsum, hrec⟩ := millis_reconstruct t
  have hsplit := dayNumber_split t
  have hdb : 1 ≤ min (theDay t) (daysInMonth (theYear t + n) (theMonth t)) ∧
      min (theDay t) (daysInMonth (theYear t + n) (theMonth t))
        ≤ daysInMonth (theYear t + n) (theMonth t) := by
    have := daysInMonthB_pos (isLeapYear (theYear t + n)) (theMonth t)
    unfold daysInMonth at *
    omega
  obtain ⟨cy, cm, cd, cms, _⟩ := mkMillis_components (theYear t + n) (theMonth t)
    (min (theDay t) (daysInMonth (theYear t + n) (theMonth t))) (msInDay t) hm1 hm2 hdb.1 hdb.2
    (by omega) (by omega)
  have hpy : plusYearsM t n = mkMillis (theYear t + n) (theMonth t)
      (min (theDay t) (daysInMonth (theYear t + n) (theMonth t))) (msInDay t) := rfl
  rw [hpy, cy, cm, cd, cms]
  exact ⟨rfl, rfl, rfl, rfl⟩

theorem monthIndexM_plusMonthsM (t n : Int) :
    monthIndexM (plusMonthsM t n) = monthIndexM t + n := by
  obtain ⟨cy, cm, _, _, _⟩ := plusMonthsM_components t n
  unfold monthIndexM
  rw [cy, cm]
  omega

theorem monthIndexM_plusYearsM (t n : Int) :
    monthIndexM (plusYearsM t n) = monthIndexM t + 12 * n := by
  obtain ⟨cy, cm, _, _⟩ := plusYearsM_components t n
  unfold monthIndexM
  rw [cy, cm]
  ring

theorem mkMillis_lt_mkMillis (y : Int) (m d : Nat) (ms : Int) (y2 : Int) (m2 d2 : Nat) (ms2 : Int)
    (hm1 : 1 ≤ m) (hm2 : m ≤ 12) (hd1 : 1 ≤ d) (hd2 : d ≤ daysInMonth y m)
    (hms1 : 0 ≤ ms) (hms2 : ms < msPerDay)
    (hn1 : 1 ≤ m2) (hn2 : m2 ≤ 12) (he1 : 1 ≤ d2) (he2 : d2 ≤ daysInMonth y2 m2)
    (hx1 : 0 ≤ ms2) (hx2 : ms2 < msPerDay)
    (hidx : 12 * y + ((m : Int) - 1) < 12 * y2 + ((m2 : Int) - 1)) :
    mkMillis y m d ms < mkMillis y2 m2 d2 ms2 := by
  have hyy : y ≤ y2 := by omega
  have hdays : daysToYearStart y + ((daysBeforeMonth y m + (d - 1) : Nat) : Int)
      < daysToYearStart y2 + ((daysBeforeMonth y2 m2 + (d2 - 1) : Nat) : Int) := by
    rcases eq_or_lt_of_le hyy with heq | hlt
    · subst heq
      have hmm : m < m2 := by omega
      have hsucc := daysBeforeMonth_succ y m hm1 hm2
      have hmono := daysBeforeMonthB_mono_all (isLeapYear y) m2 (by omega) (m + 1) (by omega)
      have hmono2 : daysBeforeMonth y (m + 1) ≤ daysBeforeMonth y m2 := hmono
      push_cast
      omega
    · have hin : daysBeforeMonth y m + daysInMonth y m ≤ daysInYear y :=
        daysBeforeMonth_add_le y m hm1 hm2
      have hstep := daysToYearStart_succ y
      have hgap := daysToYearStart_gap (y2 - (y + 1)).toNat (y + 1)
      have hcast : y + 1 + (((y2 - (y + 1)).toNat : Nat) : Int) = y2 := by omega
      rw [hcast] at hgap
      push_cast
      omega
  unfold mkMillis msPerDay at *
  omega

theorem millis_lt_of_monthIndexM_lt (t u : Int) (h : monthIndexM t < monthIndexM u) :
    t < u := by
  obtain ⟨tm1, tm2, td1, td2, _, _, trec⟩ := millis_reconstruct t
  obtain ⟨um1, um2, ud1, ud2, _, _, urec⟩ := millis_reconstruct u
  have hts := dayNumber_split t
  have hus := dayNumber_split u
  have := mkMillis_lt_mkMillis (theYear t) (theMonth t) (theDay t) (msInDay t)
    (theYear u) (theMonth u) (theDay u) (msInDay u)
    tm1 tm2 td1 td2 (by omega) (by omega) um1 um2 ud1 ud2 (by omega) (by omega)
    (by unfold monthIndexM at h; exact h)
  rw [trec, urec] at this
  exact this

theorem monthIndexM_mono (t u : Int) (h : t ≤ u) : monthIndexM t ≤ monthIndexM u := by
  by_contra hc
  have := millis_lt_of_monthIndexM_lt u t (by omega)
  omega

theorem plusMonthsM_zero (t : Int) : plusMonthsM t 0 = t := by
  obtain ⟨hm1, hm2, hd1, hd2, hdoy, hsum, hrec⟩ := millis_reconstruct t
  have h1 : theYear t + (((theMonth t : Int) - 1) + 0) / 12 = theYear t := by omega
  have h2 : ((((theMonth t : Int) - 1) + 0) % 12).toNat + 1 = theMonth t := by omega
  show mkMillis (theYear t + (((theMonth t : Int) - 1) + 0) / 12)
      (((((theMonth t : Int) - 1) + 0) % 12).toNat + 1)
      (min (theDay t) (daysInMonth (theYear t + (((theMonth t : Int) - 1) + 0) / 12)
        (((((theMonth t : Int) - 1) + 0) % 12).toNat + 1))) (msInDay t) = t
  rw [h1, h2, min_eq_left hd2]
  exact hrec

theorem plusYearsM_zero (t : Int) : plusYearsM t 0 = t := by
  obtain ⟨hm1, hm2, hd1, hd2, hdoy, hsum, hrec⟩ := millis_reconstruct t
  show mkMillis (theYear t + 0) (theMonth t)
      (min (theDay t) (daysInMonth (theYear t + 0) (theMonth t))) (msInDay t) = t
  rw [add_zero, min_eq_left hd2]
  exact hrec

theorem floor_add_frac_div (w : Int) (v : Nat) (q : ℚ) (hv : 1 ≤ v)
    (h0 : 0 ≤ q) (h1 : q < 1) :
    ⌊((w : ℚ) + q) / ((v : Nat) : ℚ)⌋ = w / (v : Int) := by
  have hvq : (0 : ℚ) < ((v : Nat) : ℚ) := by
    have : (0 : Nat) < v := by omega
    exact_mod_cast this
  have hvi : (0 : Int) < (v : Int) := by exact_mod_cast Nat.pos_of_ne_zero (by omega)
  have hdm : (w / (v : Int)) * (v : Int) ≤ w := Int.ediv_mul_le w (by omega)
  have hup : w < (w / (v : Int) + 1) * (v : Int) := Int.lt_ediv_add_one_mul_self w hvi
  rw [Int.floor_eq_iff]
  constructor
  · rw [le_div_iff₀ hvq]
    have hcast : ((w / (v : Int) : Int) : ℚ) * ((v : Nat) : ℚ)
        = (((w / (v : Int)) * (v : Int) : Int) : ℚ) := by push_cast; ring
    rw [hcast]
    have hle : ((w / (v : Int)) * (v : Int) : Int) ≤ w := hdm
    calc (((w / (v : Int)) * (v : Int) : Int) : ℚ) ≤ (w : ℚ) := by exact_mod_cast hle
    _ ≤ (w : ℚ) + q := by linarith
  · rw [div_lt_iff₀ hvq]
    have hlt : (w : Int) + 1 ≤ (w / (v : Int) + 1) * (v : Int) := by omega
    have hltq : (w : ℚ) + 1 ≤ (((w / (v : Int) + 1) * (v : Int) : Int) : ℚ) := by
      exact_mod_cast hlt
    have hcast : (((w / (v : Int) + 1) * (v : Int) : Int) : ℚ)
        = (((w / (v : Int) : Int) : ℚ) + 1) * ((v : Nat) : ℚ) := by push_cast; ring
    rw [hcast] at hltq
    linarith

theorem monthsDiffNN_plus (s k : Int) : monthsDiffNN s (plusMonthsM s k) = (k : ℚ) := by
  have hc : monthIndexM (plusMonthsM s k) - monthIndexM s = k := by
    rw [monthIndexM_plusMonthsM]; ring
  unfold monthsDiffNN
  rw [hc]
  simp

theorem yearsDiffNN_plus (s k : Int) : yearsDiffNN s (plusYearsM s k) = (k : ℚ) := by
  have hc : theYear (plusYearsM s k) - theYear s = k := by
    rw [(plusYearsM_components s k).1]; ring
  unfold yearsDiffNN
  rw [hc]
  simp

theorem plusMonthsM_strictMono (s : Int) {a b : Int} (h : a < b) :
    plusMonthsM s a < plusMonthsM s b :=
  millis_lt_of_monthIndexM_lt _ _ (by rw [monthIndexM_plusMonthsM, monthIndexM_plusMonthsM]; omega)

theorem le_plusMonthsM_self (s k : Int) (hk : 0 ≤ k) : s ≤ plusMonthsM s k := by
  rcases eq_or_lt_of_le hk with h | h
  · rw [← h, plusMonthsM_zero]
  · have := plusMonthsM_strictMono s h
    rw [plusMonthsM_zero] at this
    omega

theorem plusYearsM_strictMono (s : Int) {a b : Int} (h : a < b) :
    plusYearsM s a < plusYearsM s b :=
  millis_lt_of_monthIndexM_lt _ _ (by rw [monthIndexM_plusYearsM, monthIndexM_plusYearsM]; omega)

theorem le_plusYearsM_self (s k : Int) (hk : 0 ≤ k) : s ≤ plusYearsM s k := by
  rcases eq_or_lt_of_le hk with h | h
  · rw [← h, plusYearsM_zero]
  · have := plusYearsM_strictMono s h
    rw [plusYearsM_zero] at this
    omega

theorem monthsDiffNN_floor (s t : Int) (hst : s ≤ t) :
    ∃ w : Int, 0 ≤ w ∧
      ∀ v : Nat, 1 ≤ v → ⌊monthsDiffNN s t / ((v : Nat) : ℚ)⌋ = w / (v : Int) := by
  have hidx := monthIndexM_mono s t hst
  have hc00 : 0 ≤ monthIndexM t - monthIndexM s := by omega
  by_cases hle : plusMonthsM s (monthIndexM t - monthIndexM s) ≤ t
  · by_cases heq : plusMonthsM s (monthIndexM t - monthIndexM s) = t
    · refine ⟨monthIndexM t - monthIndexM s, hc00, fun v hv => ?_⟩
      have hval : monthsDiffNN s t = ((monthIndexM t - monthIndexM s : Int) : ℚ) := by
        unfold monthsDiffNN
        rw [if_pos hle, if_pos heq]
      rw [hval]
      have := floor_add_frac_div (monthIndexM t - monthIndexM s) v 0 hv (le_refl 0) (by norm_num)
      simpa using this
    · refine ⟨monthIndexM t - monthIndexM s, hc00, fun v hv => ?_⟩
      have hcur : plusMonthsM s (monthIndexM t - monthIndexM s) < t := by
        omega
      have hnext : t < plusMonthsM (plusMonthsM s (monthIndexM t - monthIndexM s)) 1 := by
        apply millis_lt_of_monthIndexM_lt
        rw [monthIndexM_plusMonthsM, monthIndexM_plusMonthsM]
        omega
      have hden : (0 : Int) < plusMonthsM (plusMonthsM s (monthIndexM t - monthIndexM s)) 1
          - plusMonthsM s (monthIndexM t - monthIndexM s) := by
        have := plusMonthsM_strictMono (plusMonthsM s (monthIndexM t - monthIndexM s))
          (show (0 : Int) < 1 by norm_num)
        rw [plusMonthsM_zero] at this
        omega
      have hval : monthsDiffNN s t = ((monthIndexM t - monthIndexM s : Int) : ℚ)
          + ((t - plusMonthsM s (monthIndexM t - monthIndexM s) : Int) : ℚ)
          / ((plusMonthsM (plusMonthsM s (monthIndexM t - monthIndexM s)) 1
              - plusMonthsM s (monthIndexM t - monthIndexM s) : Int) : ℚ) := by
        unfold monthsDiffNN
        rw [if_pos hle, if_neg heq]
      rw [hval]
      apply floor_add_frac_div _ _ _ hv
      · apply div_nonneg
        · have : (0 : Int) ≤ t - plusMonthsM s (monthIndexM t - monthIndexM s) := by omega
          exact_mod_cast this
        · have := hden
          exact_mod_cast le_of_lt this
      · rw [div_lt_one (by exact_mod_cast hden)]
        have : t - plusMonthsM s (monthIndexM t - monthIndexM s)
            < plusMonthsM (plusMonthsM s (monthIndexM t - monthIndexM s)) 1
              - plusMonthsM s (monthIndexM t - monthIndexM s) := by omega
        exact_mod_cast this
  · have hgt : t < plusMonthsM s (monthIndexM t - monthIndexM s) := by omega
    have hc01 : 1 ≤ monthIndexM t - monthIndexM s := by
      by_contra hc
      have h0 : monthIndexM t - monthIndexM s = 0 := by omega
      rw [h0, plusMonthsM_zero] at hgt
      omega
    refine ⟨monthIndexM t - monthIndexM s - 1, by omega, fun v hv => ?_⟩
    have hcur : plusMonthsM s (monthIndexM t - monthIndexM s - 1) ≤ t := by
      rcases eq_or_lt_of_le hidx with hi | hi
      · have h1 : monthIndexM t - monthIndexM s - 1 < 0 := by omega
        omega
      · apply le_of_lt
        apply millis_lt_of_monthIndexM_lt
        rw [monthIndexM_plusMonthsM]
        omega
    have hden : (0 : Int) < plusMonthsM s (monthIndexM t - monthIndexM s)
        - plusMonthsM s (monthIndexM t - monthIndexM s - 1) := by
      have := plusMonthsM_strictMono s
        (show monthIndexM t - monthIndexM s - 1 < monthIndexM t - monthIndexM s by omega)
      omega
    have hval : monthsDiffNN s t = ((monthIndexM t - monthIndexM s - 1 : Int) : ℚ)
        + ((t - plusMonthsM s (monthIndexM t - monthIndexM s - 1) : Int) : ℚ)
        / ((plusMonthsM s (monthIndexM t - monthIndexM s)
            - plusMonthsM s (monthIndexM t - monthIndexM s - 1) : Int) : ℚ) := by
      unfold monthsDiffNN
      rw [if_neg hle]
    rw [hval]
    apply floor_add_frac_div _ _ _ hv
    · apply div_nonneg
      · have : (0 : Int) ≤ t - plusMonthsM s (monthIndexM t - monthIndexM s - 1) := by omega
        exact_mod_cast this
      · exact_mod_cast le_of_lt hden
    · rw [div_lt_one (by exact_mod_cast hden)]
      have : t - plusMonthsM s (monthIndexM t - monthIndexM s - 1)
          < plusMonthsM s (monthIndexM t - monthIndexM s)
            - plusMonthsM s (monthIndexM t - monthIndexM s - 1) := by omega
      exact_mod_cast this

theorem theYear_mono (s t : Int) (hst : s ≤ t) : theYear s ≤ theYear t := by
  have hidx := monthIndexM_mono s t hst
  obtain ⟨sm1, sm2, _⟩ := millis_reconstruct s
  obtain ⟨tm1, tm2, _⟩ := millis_reconstruct t
  unfold monthIndexM at hidx
  omega

theorem yearsDiffNN_floor (s t : Int) (hst : s ≤ t) :
    ∃ w : Int, 0 ≤ w ∧
      ∀ v : Nat, 1 ≤ v → ⌊yearsDiffNN s t / ((v : Nat) : ℚ)⌋ = w / (v : Int) := by
  have hy := theYear_mono s t hst
  obtain ⟨sm1, sm2, _⟩ := millis_reconstruct s
  obtain ⟨tm1, tm2, _⟩ := millis_reconstruct t
  have hc00 : 0 ≤ theYear t - theYear s := by omega
  have hidxp : ∀ n : Int, monthIndexM (plusYearsM s n) = monthIndexM s + 12 * n :=
    fun n => monthIndexM_plusYearsM s n
  by_cases hle : plusYearsM s (theYear t - theYear s) ≤ t
  · by_cases heq : plusYearsM s (theYear t - theYear s) = t
    · refine ⟨theYear t - theYear s, hc00, fun v hv => ?_⟩
      have hval : yearsDiffNN s t = ((theYear t - theYear s : Int) : ℚ) := by
        unfold yearsDiffNN
        rw [if_pos hle, if_pos heq]
      rw [hval]
      have := floor_add_frac_div (theYear t - theYear s) v 0 hv (le_refl 0) (by norm_num)
      simpa using this
    · refine ⟨theYear t - theYear s, hc00, fun v hv => ?_⟩
      have hcur : plusYearsM s (theYear t - theYear s) < t := by omega
      have hnext : t < plusYearsM (plusYearsM s (theYear t - theYear s)) 1 := by
        apply millis_lt_of_monthIndexM_lt
        rw [monthIndexM_plusYearsM, monthIndexM_plusYearsM]
        unfold monthIndexM
        omega
      have hden : (0 : Int) < plusYearsM (plusYearsM s (theYear t - theYear s)) 1
          - plusYearsM (plusYearsM s (theYear t - theYear s)) 0 := by
        exact sub_pos.mpr (plusYearsM_strictMono _ (by norm_num))
      rw [plusYearsM_zero] at hden
      have hval : yearsDiffNN s t = ((theYear t - theYear s : Int) : ℚ)
          + ((t - plusYearsM s (theYear t - theYear s) : Int) : ℚ)
          / ((plusYearsM (plusYearsM s (theYear t - theYear s)) 1
              - plusYearsM s (theYear t - theYear s) : Int) : ℚ) := by
        unfold yearsDiffNN
        rw [if_pos hle, if_neg heq]
      rw [hval]
      apply floor_add_frac_div _ _ _ hv
      · apply div_nonneg
        · have : (0 : Int) ≤ t - plusYearsM s (theYear t - theYear s) := by omega
          exact_mod_cast this
        · exact_mod_cast le_of_lt hden
      · rw [div_lt_one (by exact_mod_cast hden)]
        have : t - plusYearsM s (theYear t - theYear s)
            < plusYearsM (plusYearsM s (theYear t - theYear s)) 1
              - plusYearsM s (theYear t - theYear s) := by omega
        exact_mod_cast this
  · have hgt : t < plusYearsM s (theYear t - theYear s) := by omega
    have hc01 : 1 ≤ theYear t - theYear s := by
      by_contra hc
      have h0 : theYear t - theYear s = 0 := by omega
      rw [h0, plusYearsM_zero] at hgt
      omega
    refine ⟨theYear t - theYear s - 1, by omega, fun v hv => ?_⟩
    have hcur : plusYearsM s (theYear t - theYear s - 1) ≤ t := by
      apply le_of_lt
      apply millis_lt_of_monthIndexM_lt
      rw [monthIndexM_plusYearsM]
      unfold monthIndexM
      omega
    have hden : (0 : Int) < plusYearsM s (theYear t - theYear s)
        - plusYearsM s (theYear t - theYear s - 1) := by
      have := plusYearsM_strictMono s
        (show theYear t - theYear s - 1 < theYear t - theYear s by omega)
      omega
    have hval : yearsDiffNN s t = ((theYear t - theYear s - 1 : Int) : ℚ)
        + ((t - plusYearsM s (theYear t - theYear s - 1) : Int) : ℚ)
        / ((plusYearsM s (theYear t - theYear s)
            - plusYearsM s (theYear t - theYear s - 1) : Int) : ℚ) := by
      unfold yearsDiffNN
      rw [if_neg hle]
    rw [hval]
    apply floor_add_frac_div _ _ _ hv
    · apply div_nonneg
      · have : (0 : Int) ≤ t - plusYearsM s (theYear t - theYear s - 1) := by omega
        exact_mod_cast this
      · exact_mod_cast le_of_lt hden
    · rw [div_lt_one (by exact_mod_cast hden)]
      have : t - plusYearsM s (theYear t - theYear s - 1)
          < plusYearsM s (theYear t - theYear s)
            - plusYearsM s (theYear t - theYear s - 1) := by omega
      exact_mod_cast this

theorem dayNumber_mul (q : Int) : dayNumber (q * msPerDay) = q := by
  unfold dayNumber msPerDay
  omega

theorem startOfDayM_idem (t : Int) : startOfDayM (startOfDayM t) = startOfDayM t := by
  unfold startOfDayM
  rw [dayNumber_mul]

theorem ordMillis_components (y : Int) (doy1 : Nat) (h1 : 1 ≤ doy1) (h2 : doy1 ≤ daysInYear y) :
    theYear (ordMillis y doy1) = y ∧ ordinal1 (ordMillis y doy1) = doy1 := by
  have hday : dayNumber (ordMillis y doy1) = daysToYearStart y + ((doy1 - 1 : Nat) : Int) := by
    unfold ordMillis dayNumber msPerDay
    omega
  have hyd : yearDoyOfDays (dayNumber (ordMillis y doy1)) = (y, doy1 - 1) := by
    rw [hday]
    exact yearDoyOfDays_mk y (doy1 - 1) (by omega)
  constructor
  · unfold theYear
    rw [hyd]
  · unfold ordinal1 theDoy0
    rw [hyd]
    omega

theorem floor_intCast_div (w : Int) (v : Nat) (hv : 1 ≤ v) :
    ⌊((w : Int) : ℚ) / ((v : Nat) : ℚ)⌋ = w / (v : Int) := by
  have := floor_add_frac_div w v 0 hv (le_refl 0) (by norm_num)
  simpa using this

theorem nat_block_fixed (k v : Nat) (hv : 2 ≤ v) : (k * v + 1) / v = k := by
  rw [mul_comm, Nat.mul_add_div (by omega)]
  rw [Nat.div_eq_of_lt (by omega)]
  omega

theorem snapLegacy_idem (t : Int) (g : GridSettings) :
    (snapLegacy t g).bind (fun m => snapLegacy m g) = snapLegacy t g := by
  obtain ⟨hm1, hm2, hd1, hd2, hdoy, hsum, hrec⟩ := millis_reconstruct t
  obtain ⟨u, v⟩ := g
  have hday : (0 : Int) ≤ 0 ∧ (0 : Int) < msPerDay := by unfold msPerDay; omega
  cases u with
  | day =>
    by_cases hv : 1 < v
    · by_cases hord : ordinal1 t / v * v + 1 ≤ daysInYear (theYear t)
      · have hsnap : snapLegacy t ⟨.day, v⟩
            = some (ordMillis (theYear t) (ordinal1 t / v * v + 1)) := by
          simp only [snapLegacy]
          rw [if_pos hv, if_pos hord]
        rw [hsnap, Option.some_bind]
        obtain ⟨cy, cord⟩ := ordMillis_components (theYear t)
          (ordinal1 t / v * v + 1) (by omega) hord
        have hfix : (ordinal1 t / v * v + 1) / v * v + 1
            = ordinal1 t / v * v + 1 := by
          rw [nat_block_fixed (ordinal1 t / v) v (by omega)]
        simp only [snapLegacy]
        rw [if_pos hv, cy, cord, hfix, if_pos hord]
      · have hsnap : snapLegacy t ⟨.day, v⟩ = none := by
          simp only [snapLegacy]
          rw [if_pos hv, if_neg hord]
        rw [hsnap]
        rfl
    · have hsnap : snapLegacy t ⟨.day, v⟩ = some (startOfDayM t) := by
        simp only [snapLegacy]
        rw [if_neg hv]
      rw [hsnap, Option.some_bind]
      simp only [snapLegacy]
      rw [if_neg hv, startOfDayM_idem]
  | month =>
    by_cases hv : 1 < v
    · have hble : (theMonth t - 1) / v * v + 1 ≤ theMonth t := by
        have := Nat.div_mul_le_self (theMonth t - 1) v
        omega
      obtain ⟨cy, cm, _, _, _⟩ := mkMillis_components (theYear t)
        ((theMonth t - 1) / v * v + 1) 1 0 (by omega) (by omega) (le_refl 1)
        (by have := daysInMonthB_pos (isLeapYear (theYear t))
              ((theMonth t - 1) / v * v + 1)
            unfold daysInMonth
            omega)
        hday.1 hday.2
      have hsnap : snapLegacy t ⟨.month, v⟩
          = some (mkMillis (theYear t) ((theMonth t - 1) / v * v + 1) 1 0) := by
        simp only [snapLegacy]
        rw [if_pos hv]
      rw [hsnap, Option.some_bind]
      simp only [snapLegacy]
      rw [if_pos hv, cy, cm]
      have hfix : ((theMonth t - 1) / v * v + 1 - 1) / v * v + 1
          = (theMonth t - 1) / v * v + 1 := by
        have h1 : (theMonth t - 1) / v * v + 1 - 1 = (theMonth t - 1) / v * v := by omega
        rw [h1, Nat.mul_div_cancel _ (by omega)]
      rw [hfix]
    · obtain ⟨cy, cm, _, _, _⟩ := mkMillis_components (theYear t) (theMonth t) 1 0
        hm1 hm2 (le_refl 1)
        (by have := daysInMonthB_pos (isLeapYear (theYear t)) (theMonth t)
            unfold daysInMonth
            omega)
        hday.1 hday.2
      have hsnap : snapLegacy t ⟨.month, v⟩ = some (startOfMonthM t) := by
        simp only [snapLegacy]
        rw [if_neg hv]
      rw [hsnap, Option.some_bind]
      simp only [snapLegacy]
      rw [if_neg hv]
      unfold startOfMonthM
      rw [cy, cm]
  | year =>
    by_cases hv : 1 < v
    · obtain ⟨cy, cm, _, _, _⟩ := mkMillis_components (theYear t / (v : Int) * (v : Int))
        1 1 0 (le_refl 1) (by omega) (le_refl 1)
        (by have := daysInMonthB_pos
              (isLeapYear (theYear t / (v : Int) * (v : Int))) 1
            unfold daysInMonth
            omega)
        hday.1 hday.2
      have hsnap : snapLegacy t ⟨.year, v⟩
          = some (mkMillis (theYear t / (v : Int) * (v : Int)) 1 1 0) := by
        simp only [snapLegacy]
        rw [if_pos hv]
      rw [hsnap, Option.some_bind]
      simp only [snapLegacy]
      rw [if_pos hv, cy]
      rw [Int.mul_ediv_cancel _ (by omega : (v : Int) ≠ 0)]
    · obtain ⟨cy, cm, _, _, _⟩ := mkMillis_components (theYear t) 1 1 0
        (le_refl 1) (by omega) (le_refl 1)
        (by have := daysInMonthB_pos (isLeapYear (theYear t)) 1
            unfold daysInMonth
            omega)
        hday.1 hday.2
      have hsnap : snapLegacy t ⟨.year, v⟩ = some (startOfYearM t) := by
        simp only [snapLegacy]
        rw [if_neg hv]
      rw [hsnap, Option.some_bind]
      simp only [snapLegacy]
      rw [if_neg hv]
      unfold startOfYearM
      rw [cy]

/-- C6 amended: snapping is idempotent whenever no timeline start date is
supplied (or the start date is 0, which JavaScript treats as absent), and in
the start-date mode for the day unit always, and for the month/year units
whenever the timestamp is not before the start date.  (For a timestamp
before a start date whose day-of-month clamps under Luxon month stepping,
a second snap can move the result again — see the counterexample.) -/
theorem snapToGrid_idem_of (t : Int) (g : GridSettings) (sd : Option Int)
    (h : match sd with
      | none => True
      | some s => s = 0 ∨ g.unit = GridIntervalUnit.day ∨ s ≤ t) :
    (snapToGridMillis t g sd).bind (fun m => snapToGridMillis m g sd)
      = snapToGridMillis t g sd := by
  match sd with
  | none =>
    have he : ∀ x, snapToGridMillis x g none = snapLegacy x g := fun x => rfl
    simp only [he]
    exact snapLegacy_idem t g
  | some s =>
    by_cases hs : s = 0
    · subst hs
      have he : ∀ x, snapToGridMillis x g (some 0) = snapLegacy x g := by
        intro x
        simp [snapToGridMillis]
      simp only [he]
      exact snapLegacy_idem t g
    · by_cases hv0 : g.value = 0
      · have he : snapToGridMillis t g (some s) = none := by
          simp only [snapToGridMillis]
          rw [if_neg hs, if_pos hv0]
        rw [he]
        rfl
      · obtain ⟨u, v⟩ := g
        have hv1 : 1 ≤ v := by
          simp only at hv0
          omega
        cases u with
        | day =>
          have hc0 : ((v : Int) * msPerDay) ≠ 0 := by
            unfold msPerDay
            have : (1 : Int) ≤ (v : Int) := by exact_mod_cast hv1
            positivity
          have he : ∀ x, snapToGridMillis x ⟨.day, v⟩ (some s)
              = some (s + (x - s) / ((v : Int) * msPerDay) * ((v : Int) * msPerDay)) := by
            intro x
            simp only [snapToGridMillis]
            rw [if_neg hs, if_neg hv0]
          rw [he t, Option.some_bind, he]
          have harg : s + (t - s) / ((v : Int) * msPerDay) * ((v : Int) * msPerDay) - s
              = (t - s) / ((v : Int) * msPerDay) * ((v : Int) * msPerDay) := by ring
          rw [harg, Int.mul_ediv_cancel _ hc0]
        | month =>
          have hst : s ≤ t := by
            rcases h with h | h | h
            · exact absurd h hs
            · exact absurd h (by simp)
            · exact h
          obtain ⟨w, hw0, hwf⟩ := monthsDiffNN_floor s t hst
          have he : snapToGridMillis t ⟨.month, v⟩ (some s)
              = some (plusMonthsM s (⌊monthsDiffM t s / ((v : Nat) : ℚ)⌋ * v)) := by
            simp only [snapToGridMillis]
            rw [if_neg hs, if_neg hv0]
          have hdm : monthsDiffM t s = monthsDiffNN s t := by
            unfold monthsDiffM
            rw [if_pos hst]
          have hgn : ⌊monthsDiffM t s / ((v : Nat) : ℚ)⌋ = w / (v : Int) := by
            rw [hdm]
            exact hwf v hv1
          have hk0 : (0 : Int) ≤ w / (v : Int) * (v : Nat) := by
            have h1 : (0 : Int) ≤ w / (v : Int) := Int.ediv_nonneg hw0 (by omega)
            positivity
          rw [he, hgn, Option.some_bind]
          simp only [snapToGridMillis]
          rw [if_neg hs, if_neg hv0]
          have hsr : s ≤ plusMonthsM s (w / (v : Int) * (v : Nat)) :=
            le_plusMonthsM_self s _ hk0
          have hdm2 : monthsDiffM (plusMonthsM s (w / (v : Int) * (v : Nat))) s
              = ((w / (v : Int) * (v : Nat) : Int) : ℚ) := by
            unfold monthsDiffM
            rw [if_pos hsr]
            exact monthsDiffNN_plus s _
          rw [hdm2, floor_intCast_div _ v hv1]
          rw [Int.mul_ediv_cancel _ (by omega : ((v : Nat) : Int) ≠ 0)]
        | year =>
          have hst : s ≤ t := by
            rcases h with h | h | h
            · exact absurd h hs
            · exact absurd h (by simp)
            · exact h
          obtain ⟨w, hw0, hwf⟩ := yearsDiffNN_floor s t hst
          have he : snapToGridMillis t ⟨.year, v⟩ (some s)
              = some (plusYearsM s (⌊yearsDiffM t s / ((v : Nat) : ℚ)⌋ * v)) := by
            simp only [snapToGridMillis]
            rw [if_neg hs, if_neg hv0]
          have hdm : yearsDiffM t s = yearsDiffNN s t := by
            unfold yearsDiffM
            rw [if_pos hst]
          have hgn : ⌊yearsDiffM t s / ((v : Nat) : ℚ)⌋ = w / (v : Int) := by
            rw [hdm]
            exact hwf v hv1
          have hk0 : (0 : Int) ≤ w / (v : Int) * (v : Nat) := by
            have h1 : (0 : Int) ≤ w / (v : Int) := Int.ediv_nonneg hw0 (by omega)
            positivity
          rw [he, hgn, Option.some_bind]
          simp only [snapToGridMillis]
          rw [if_neg hs, if_neg hv0]
          have hsr : s ≤ plusYearsM s (w / (v : Int) * (v : Nat)) :=
            le_plusYearsM_self s _ hk0
          have hdm2 : yearsDiffM (plusYearsM s (w / (v : Int) * (v : Nat))) s
              = ((w / (v : Int) * (v : Nat) : Int) : ℚ) := by
            unfold yearsDiffM
            rw [if_pos hsr]
            exact yearsDiffNN_plus s _
          rw [hdm2, floor_intCast_div _ v hv1]
          rw [Int.mul_ediv_cancel _ (by omega : ((v : Nat) : Int) ≠ 0)]

theorem foldl_map_exchange {α β : Type} (sel : List α) (g : α → β → β) :
    ∀ l : List β, sel.foldl (fun acc a => acc.map (g a)) l
      = l.map (fun b => sel.foldl (fun x a => g a x) b) := by
  induction sel with
  | nil => intro l; simp
  | cons a sel ih =>
    intro l
    have h1 : (a :: sel).foldl (fun acc x => acc.map (g x)) l
        = sel.foldl (fun acc x => acc.map (g x)) (l.map (g a)) := rfl
    rw [h1, ih (l.map (g a)), List.map_map]
    rfl

theorem applyUpdates_id (b : TimelineIntervalV2) (u : IntervalUpdates)
    (h : u.newId = none) : (applyUpdates b u).id = b.id := by
  simp [applyUpdates, h]

theorem foldl_match_skip (sel : List TimelineIntervalV2) (f : TimelineIntervalV2 → IntervalUpdates)
    (b : TimelineIntervalV2) (h : ∀ i ∈ sel, i.id ≠ b.id) :
    sel.foldl (fun x i => if x.id = i.id then applyUpdates x (f i) else x) b = b := by
  induction sel with
  | nil => rfl
  | cons a sel ih =>
    have ha : b.id ≠ a.id := fun he => h a (by simp) he.symm
    have h1 : (a :: sel).foldl (fun x i => if x.id = i.id then applyUpdates x (f i) else x) b
        = sel.foldl (fun x i => if x.id = i.id then applyUpdates x (f i) else x)
          (if b.id = a.id then applyUpdates b (f a) else b) := rfl
    rw [h1, if_neg ha]
    exact ih fun i hi => h i (by simp [hi])

theorem foldl_match_unique (sel : List TimelineIntervalV2)
    (f : TimelineIntervalV2 → IntervalUpdates) (b : TimelineIntervalV2)
    (hid : ∀ i, (f i).newId = none)
    (hnd : sel.Nodup) (hmem : b ∈ sel) (huniq : ∀ i ∈ sel, i.id = b.id → i = b) :
    sel.foldl (fun x i => if x.id = i.id then applyUpdates x (f i) else x) b
      = applyUpdates b (f b) := by
  induction sel with
  | nil => exact absurd hmem (by simp)
  | cons a sel ih =>
    have h1 : (a :: sel).foldl (fun x i => if x.id = i.id then applyUpdates x (f i) else x) b
        = sel.foldl (fun x i => if x.id = i.id then applyUpdates x (f i) else x)
          (if b.id = a.id then applyUpdates b (f a) else b) := rfl
    rcases List.mem_cons.mp hmem with hb | hb
    · subst hb
      rw [h1, if_pos rfl]
      apply foldl_match_skip
      intro i hi hieq
      have hne : b ∉ sel := (List.nodup_cons.mp hnd).1
      have : i.id = b.id := by rw [hieq, applyUpdates_id b (f b) (hid b)]
      have := huniq i (by simp [hi]) this
      subst this
      exact hne hi
    · have ha : b.id ≠ a.id := by
        intro he
        have := huniq a (by simp) he.symm
        subst this
        exact (List.nodup_cons.mp hnd).1 hb
      rw [h1, if_neg ha]
      exact ih (List.nodup_cons.mp hnd).2 hb fun i hi => huniq i (by simp [hi])

theorem foldl_updateInterval_state (sel : List TimelineIntervalV2)
    (f : TimelineIntervalV2 → IntervalUpdates) :
    ∀ st0 : TimelineState,
      sel.foldl (fun st i => timelineReducer st (.updateInterval i.id (f i))) st0
        = { st0 with intervals := (sel.foldl
            (fun acc i => acc.map fun b => if b.id = i.id then applyUpdates b (f i) else b)
            st0.intervals) } := by
  induction sel with
  | nil => intro st0; rfl
  | cons a sel ih =>
    intro st0
    have h1 : (a :: sel).foldl (fun st i => timelineReducer st (.updateInterval i.id (f i))) st0
        = sel.foldl (fun st i => timelineReducer st (.updateInterval i.id (f i)))
          (timelineReducer st0 (.updateInterval a.id (f a))) := rfl
    rw [h1, ih]
    rfl

theorem foldl_addInterval_state (xs : List TimelineIntervalV2) :
    ∀ st0 : TimelineState,
      xs.foldl (fun st p => timelineReducer st (.addInterval p)) st0
        = { st0 with intervals := st0.intervals ++ xs } := by
  induction xs with
  | nil => intro st0; simp
  | cons a xs ih =>
    intro st0
    have h1 : (a :: xs).foldl (fun st p => timelineReducer st (.addInterval p)) st0
        = xs.foldl (fun st p => timelineReducer st (.addInterval p))
          (timelineReducer st0 (.addInterval a)) := rfl
    rw [h1, ih]
    simp [timelineReducer]

theorem foldl_min_le_init : ∀ (l : List ℚ) (a : ℚ), l.foldl min a ≤ a := by
  intro l
  induction l with
  | nil => intro a; exact le_refl a
  | cons x xs ih =>
    intro a
    have h1 : (x :: xs).foldl min a = xs.foldl min (min a x) := rfl
    rw [h1]
    calc xs.foldl min (min a x) ≤ min a x := ih (min a x)
    _ ≤ a := min_le_left a x

theorem foldl_min_le : ∀ (l : List ℚ) (a q : ℚ), q ∈ l → l.foldl min a ≤ q := by
  intro l
  induction l with
  | nil => intro a q hq; exact absurd hq (by simp)
  | cons x xs ih =>
    intro a q hq
    have h1 : (x :: xs).foldl min a = xs.foldl min (min a x) := rfl
    rcases List.mem_cons.mp hq with h | h
    · rw [h1, h]
      calc xs.foldl min (min a x) ≤ min a x := foldl_min_le_init xs (min a x)
      _ ≤ x := min_le_right a x
    · rw [h1]
      exact ih (min a x) q h

theorem foldl_min_mem : ∀ (l : List ℚ) (a : ℚ), l.foldl min a = a ∨ l.foldl min a ∈ l := by
  intro l
  induction l with
  | nil => intro a; exact Or.inl rfl
  | cons x xs ih =>
    intro a
    have h1 : (x :: xs).foldl min a = xs.foldl min (min a x) := rfl
    rcases ih (min a x) with h | h
    · rcases min_cases a x with ⟨hm, _⟩ | ⟨hm, _⟩
      · exact Or.inl (by rw [h1, h, hm])
      · exact Or.inr (by rw [h1, h, hm]; exact List.mem_cons_self x xs)
    · exact Or.inr (by rw [h1]; exact List.mem_cons_of_mem x h)

/-- C1: the claim says `moveIntervalV2` preserves `gridAmount` and `gridUnit`.
The code overwrites both from the grid settings (contradicting its own doc
comment "while maintaining its grid structure"): moving a 3-month interval
under a 1-day grid yields a 1-day interval.  The last conjunct shows the
general behaviour whenever the snap is valid. -/
theorem c1_move_overwrites_shape :
    moveIntervalV2 ⟨"a", 0, .month, 3, none⟩ 0 ⟨.day, 1⟩
        = some ⟨"a", 0, .day, 1, none⟩
      ∧ ((3 : Int) ≠ 1 ∧ GridIntervalUnit.month ≠ GridIntervalUnit.day)
      ∧ (∀ (i : TimelineIntervalV2) (t : Int) (g : GridSettings) (ms : Int),
          snapToGridMillis t g none = some ms →
          moveIntervalV2 i t g = some { i with
            startTime := (ms : ℚ)
            gridUnit := g.unit
            gridAmount := (g.value : Int) }) := by
  refine ⟨?_, by decide, ?_⟩
  · have hsnap : snapToGridMillis 0 ⟨.day, 1⟩ none = some 0 := by decide
    unfold moveIntervalV2
    rw [hsnap]
    simp
  · intro i t g ms h
    unfold moveIntervalV2
    rw [h]
    rfl

/-- C2: the end time is derived, never stored: it is always the start
advanced by `gridAmount` counts of `gridUnit` through the calendar (first
conjunct), and concretely a 1-month interval starting July 1 ends August 1
while the same interval starting March 1 ends April 1. -/
theorem c2_end_time_calendar_derived :
    (∀ (idv : String) (s : Int) (u : GridIntervalUnit) (n : Int) (md : Option String),
      getIntervalEndTime ⟨idv, (s : ℚ), u, n, md⟩ = ((advanceMillis s u n : Int) : ℚ))
      ∧ getIntervalEndTime ⟨"july", ((mkMillis 2023 7 1 0 : Int) : ℚ), .month, 1, none⟩
          = ((mkMillis 2023 8 1 0 : Int) : ℚ)
      ∧ getIntervalEndTime ⟨"march", ((mkMillis 2023 3 1 0 : Int) : ℚ), .month, 1, none⟩
          = ((mkMillis 2023 4 1 0 : Int) : ℚ) := by
  have hgen : ∀ (idv : String) (s : Int) (u : GridIntervalUnit) (n : Int) (md : Option String),
      getIntervalEndTime ⟨idv, (s : ℚ), u, n, md⟩ = ((advanceMillis s u n : Int) : ℚ) := by
    intro idv s u n md
    unfold getIntervalEndTime
    simp [Int.floor_intCast]
  refine ⟨hgen, ?_, ?_⟩
  · rw [hgen]
    have h : advanceMillis (mkMillis 2023 7 1 0) .month 1 = mkMillis 2023 8 1 0 := by decide
    rw [h]
  · rw [hgen]
    have h : advanceMillis (mkMillis 2023 3 1 0) .month 1 = mkMillis 2023 4 1 0 := by decide
    rw [h]

/-- C5: the claim says `snapToGrid` is a floor snap (never after the input)
for all three units, including `value > 1`.  The day branch with `value > 1`
computes `floor(ordinal/value)*value + 1` without the `- 1` the month branch
has: Jan 2 1970 with a 2-day grid snaps *forward* to Jan 3 1970, and Dec 31
2024 snaps to the invalid ordinal 367 (NaN).  With `value = 1` the same
timestamp floor-snaps correctly. -/
theorem c5_day_snap_overshoots :
    snapToGridMillis 86400000 ⟨.day, 2⟩ none = some 172800000
      ∧ (86400000 : Int) < 172800000
      ∧ snapToGridMillis (mkMillis 2024 12 31 0) ⟨.day, 2⟩ none = none
      ∧ snapToGridMillis 86400000 ⟨.day, 1⟩ none = some 86400000 := by
  refine ⟨by decide, by decide, by decide, by decide⟩

/-- C9: UPDATE_INTERVAL with an id no stored interval carries leaves the
state unchanged (the reducer is total, so nothing is thrown). -/
theorem c9_update_unknown_id_noop (st : TimelineState) (id : String) (u : IntervalUpdates)
    (h : ∀ i ∈ st.intervals, i.id ≠ id) :
    timelineReducer st (.updateInterval id u) = st := by
  have hmap : (st.intervals.map fun interval =>
      if interval.id = id then applyUpdates interval u else interval) = st.intervals := by
    conv_rhs => rw [← List.map_id st.intervals]
    apply List.map_congr_left
    intro a ha
    rw [if_neg (h a ha)]
    rfl
  show { st with intervals := st.intervals.map fun interval =>
      if interval.id = id then applyUpdates interval u else interval } = st
  rw [hmap]

theorem c9_witness :
    timelineReducer ⟨[⟨"a", 5, .day, 2, none⟩], ["a"], ⟨.day, 1⟩, []⟩
        (.updateInterval "zzz" { newStartTime := some 9 })
      = ⟨[⟨"a", 5, .day, 2, none⟩], ["a"], ⟨.day, 1⟩, []⟩ :=
  c9_update_unknown_id_noop ⟨[⟨"a", 5, .day, 2, none⟩], ["a"], ⟨.day, 1⟩, []⟩ "zzz"
    { newStartTime := some 9 } (by intro i hi; simp at hi; rw [hi]; decide)

/-- C10: DELETE_INTERVAL removes exactly the intervals with the given id,
keeps every other interval (in order, as a sublist of the original), removes
the id from the selection while keeping all other selected ids, and leaves
clipboard and grid settings untouched. -/
theorem c10_delete_exact (st : TimelineState) (delId : String) :
    (∀ i ∈ (timelineReducer st (.deleteInterval delId)).intervals,
        i ∈ st.intervals ∧ i.id ≠ delId)
      ∧ (∀ i ∈ st.intervals, i.id ≠ delId →
          i ∈ (timelineReducer st (.deleteInterval delId)).intervals)
      ∧ (timelineReducer st (.deleteInterval delId)).intervals.Sublist st.intervals
      ∧ delId ∉ (timelineReducer st (.deleteInterval delId)).selectedIntervalIds
      ∧ (∀ x ∈ st.selectedIntervalIds, x ≠ delId →
          x ∈ (timelineReducer st (.deleteInterval delId)).selectedIntervalIds)
      ∧ (timelineReducer st (.deleteInterval delId)).clipboard = st.clipboard
      ∧ (timelineReducer st (.deleteInterval delId)).gridSettings = st.gridSettings := by
  refine ⟨?_, ?_, ?_, ?_, ?_, rfl, rfl⟩
  · intro i hi
    simp only [timelineReducer, List.mem_filter, decide_eq_true_eq] at hi
    exact hi
  · intro i hi hne
    simp only [timelineReducer, List.mem_filter, decide_eq_true_eq]
    exact ⟨hi, hne⟩
  · exact List.filter_sublist st.intervals
  · intro hmem
    simp only [timelineReducer, List.mem_filter, decide_eq_true_eq] at hmem
    exact hmem.2 rfl
  · intro x hx hne
    simp only [timelineReducer, List.mem_filter, decide_eq_true_eq]
    exact ⟨hx, hne⟩

theorem foldl_updateInterval_ga (sel : List TimelineIntervalV2)
    (f : TimelineIntervalV2 → IntervalUpdates)
    (hga : ∀ i x, 1 ≤ x.gridAmount → 1 ≤ (applyUpdates x (f i)).gridAmount) :
    ∀ st0 : TimelineState, (∀ j ∈ st0.intervals, 1 ≤ j.gridAmount) →
      ∀ j ∈ (sel.foldl (fun st i => timelineReducer st (.updateInterval i.id (f i))) st0).intervals,
        1 ≤ j.gridAmount := by
  induction sel with
  | nil => intro st0 hinv j hj; exact hinv j hj
  | cons a sel ih =>
    intro st0 hinv j hj
    have h1 : (a :: sel).foldl (fun st i => timelineReducer st (.updateInterval i.id (f i))) st0
        = sel.foldl (fun st i => timelineReducer st (.updateInterval i.id (f i)))
          (timelineReducer st0 (.updateInterval a.id (f a))) := rfl
    rw [h1] at hj
    refine ih (timelineReducer st0 (.updateInterval a.id (f a))) ?_ j hj
    intro x hx
    simp only [timelineReducer, List.mem_map] at hx
    obtain ⟨b, hb, hbx⟩ := hx
    by_cases hcase : b.id = a.id
    · rw [if_pos hcase] at hbx
      rw [← hbx]
      exact hga a b (hinv b hb)
    · rw [if_neg hcase] at hbx
      rw [← hbx]
      exact hinv b hb

/-- C8: every interval-producing or -mutating core operation keeps
`gridAmount ≥ 1`: resize and create clamp with `max 1`, legacy conversion
clamps its rounded duration, and a scale (`handleMultiply`) writes only
`max 1 (round …)` amounts, so it preserves the invariant on the whole
state. -/
theorem c8_gridAmount_at_least_one (i : TimelineIntervalV2) (n : Int) (newId : String)
    (sq : ℚ) (u : GridIntervalUnit) (ga : Int) (md : Option String)
    (leg : TimelineInterval) (g : GridSettings)
    (st : TimelineState) (now : Int) (factor : ℚ)
    (hinv : ∀ j ∈ st.intervals, 1 ≤ j.gridAmount) :
    1 ≤ (resizeIntervalV2 i n).gridAmount
      ∧ 1 ≤ (createIntervalV2 newId sq u ga md).gridAmount
      ∧ 1 ≤ (convertToV2Interval leg g).gridAmount
      ∧ ∀ j ∈ (handleMultiply st now factor).intervals, 1 ≤ j.gridAmount := by
  refine ⟨le_max_left 1 n, le_max_left 1 ga, le_max_left 1 _, ?_⟩
  intro j hj
  by_cases hsel : st.intervals.filter
      (fun interval => st.selectedIntervalIds.contains interval.id) = []
  · simp only [handleMultiply] at hj
    rw [if_pos hsel] at hj
    exact hinv j hj
  · simp only [handleMultiply] at hj
    rw [if_neg hsel] at hj
    exact foldl_updateInterval_ga _ _ (fun a x _ => le_max_left 1 _) st hinv j hj

theorem c8_witness :
    1 ≤ (resizeIntervalV2 ⟨"x", 0, .day, 5, none⟩ (-7)).gridAmount
      ∧ 1 ≤ (convertToV2Interval ⟨"l", 0, 0, none⟩ ⟨.day, 1⟩).gridAmount
      ∧ 1 ≤ ((⟨"a", 0, .day, 2, none⟩ : TimelineIntervalV2)).gridAmount := by
  obtain ⟨h1, _, h3, h4⟩ := c8_gridAmount_at_least_one ⟨"x", 0, .day, 5, none⟩ (-7) "n" 0 .day 0
    none ⟨"l", 0, 0, none⟩ ⟨.day, 1⟩ ⟨[⟨"a", 0, .day, 2, none⟩], [], ⟨.day, 1⟩, []⟩ 0 2
    (by intro j hj; simp at hj; rw [hj]; decide)
  refine ⟨h1, h3, ?_⟩
  have hid : handleMultiply ⟨[⟨"a", 0, .day, 2, none⟩], [], ⟨.day, 1⟩, []⟩ 0 2
      = ⟨[⟨"a", 0, .day, 2, none⟩], [], ⟨.day, 1⟩, []⟩ := rfl
  exact h4 ⟨"a", 0, .day, 2, none⟩ (by rw [hid]; simp)

theorem foldl_addInterval_map {α : Type} (xs : List α) (f : α → TimelineIntervalV2) :
    ∀ st0 : TimelineState,
      xs.foldl (fun st p => timelineReducer st (.addInterval (f p))) st0
        = { st0 with intervals := st0.intervals ++ xs.map f } := by
  induction xs with
  | nil => intro st0; simp
  | cons a xs ih =>
    intro st0
    have h1 : (a :: xs).foldl (fun st p => timelineReducer st (.addInterval (f p))) st0
        = xs.foldl (fun st p => timelineReducer st (.addInterval (f p)))
          (timelineReducer st0 (.addInterval (f a))) := rfl
    rw [h1, ih]
    simp [timelineReducer]

/-- C4 amended: `handlePaste` appends, per clipboard entry in order, a copy
with a fresh id whose start is the original start plus one grid cell
(`getMillisecondsPerGridUnit` at the current instant), then clears the
clipboard; selection and grid settings are untouched. -/
theorem c4_handlePaste_shifts_each (st : TimelineState) (now : Int)
    (freshIds : Nat → String) (h : st.clipboard ≠ []) :
    (handlePaste st now freshIds).intervals
        = st.intervals ++ st.clipboard.enum.map (fun p =>
            { p.2 with
              id := freshIds p.1
              startTime := p.2.startTime
                + ((getMillisecondsPerGridUnit now st.gridSettings : Int) : ℚ) })
      ∧ (handlePaste st now freshIds).clipboard = []
      ∧ (handlePaste st now freshIds).selectedIntervalIds = st.selectedIntervalIds
      ∧ (handlePaste st now freshIds).gridSettings = st.gridSettings := by
  have hfold := foldl_addInterval_map st.clipboard.enum (fun p =>
    { p.2 with
      id := freshIds p.1
      startTime := p.2.startTime
        + ((getMillisecondsPerGridUnit now st.gridSettings : Int) : ℚ) }) st
  have hep : handlePaste st now freshIds
      = timelineReducer
          ({ st with intervals := st.intervals ++ st.clipboard.enum.map (fun p =>
            { p.2 with
              id := freshIds p.1
              startTime := p.2.startTime
                + ((getMillisecondsPerGridUnit now st.gridSettings : Int) : ℚ) }) })
          .clearClipboard := by
    simp only [handlePaste]
    rw [if_neg h, hfold]
  rw [hep]
  exact ⟨rfl, rfl, rfl, rfl⟩

/-- C4 counterexample: pasting a clipboard holding one 3-day interval that
starts at the epoch (1-day grid): the code places the copy at epoch + 1 day,
while the claim's max-end anchoring demands epoch + 3 days. -/
theorem c4_counterexample :
    (handlePaste ⟨[], [], ⟨.day, 1⟩, [⟨"c", 0, .day, 3, none⟩]⟩ 0 (fun _ => "p0")).intervals
        = [⟨"p0", 86400000, .day, 3, none⟩]
      ∧ pasteClaimStart [⟨"c", 0, .day, 3, none⟩] ⟨"c", 0, .day, 3, none⟩ = 259200000
      ∧ (86400000 : ℚ) ≠ 259200000 := by
  refine ⟨?_, ?_, by norm_num⟩
  · have hms : getMillisecondsPerGridUnit 0 ⟨.day, 1⟩ = 86400000 := by decide
    simp [handlePaste, timelineReducer, List.enum, hms]
  · unfold pasteClaimStart
    have hend : getIntervalEndTime ⟨"c", 0, .day, 3, none⟩ = 259200000 := by
      unfold getIntervalEndTime advanceMillis plusDaysM msPerDay
      norm_num
    simp [hend]

theorem c4_witness :
    (handlePaste ⟨[], [], ⟨.day, 1⟩, [⟨"c", 0, .day, 3, none⟩]⟩ 0 (fun _ => "p0")).clipboard
      = [] :=
  (c4_handlePaste_shifts_each ⟨[], [], ⟨.day, 1⟩, [⟨"c", 0, .day, 3, none⟩]⟩ 0
    (fun _ => "p0") (by simp)).2.1

theorem c6_witness :
    (snapToGridMillis 172800000 ⟨.month, 2⟩ (some 86400000)).bind
        (fun m => snapToGridMillis m ⟨.month, 2⟩ (some 86400000))
      = snapToGridMillis 172800000 ⟨.month, 2⟩ (some 86400000) :=
  snapToGrid_idem_of 172800000 ⟨.month, 2⟩ (some 86400000)
    (Or.inr (Or.inr (by norm_num)))

/-- C6 counterexample: with a start date of 2023-03-31 and a 1-month grid,
2023-03-30 snaps to 2023-02-28, but snapping 2023-02-28 again gives
2023-01-31: `snap(snap(t,g),g) ≠ snap(t,g)`. -/
theorem c6_counterexample :
    (snapToGridMillis (mkMillis 2023 3 30 0) ⟨.month, 1⟩ (some (mkMillis 2023 3 31 0))).bind
        (fun m => snapToGridMillis m ⟨.month, 1⟩ (some (mkMillis 2023 3 31 0)))
      ≠ snapToGridMillis (mkMillis 2023 3 30 0) ⟨.month, 1⟩ (some (mkMillis 2023 3 31 0)) := by
  have hc1 : monthIndexM (mkMillis 2023 3 31 0) - monthIndexM (mkMillis 2023 3 30 0) = 0 := by
    decide
  have hz : plusMonthsM (mkMillis 2023 3 30 0) 0 = mkMillis 2023 3 30 0 := by decide
  have hnn1 : monthsDiffNN (mkMillis 2023 3 30 0) (mkMillis 2023 3 31 0)
      = ((0 : Int) : ℚ) + ((86400000 : Int) : ℚ) / ((2678400000 : Int) : ℚ) := by
    unfold monthsDiffNN
    simp only [hc1, hz]
    rw [if_pos (by decide), if_neg (by decide)]
    rw [show mkMillis 2023 3 31 0 - mkMillis 2023 3 30 0 = 86400000 from by decide]
    rw [show plusMonthsM (mkMillis 2023 3 30 0) 1 - mkMillis 2023 3 30 0 = 2678400000 from by
      decide]
  have hdm1 : monthsDiffM (mkMillis 2023 3 30 0) (mkMillis 2023 3 31 0)
      = -(((0 : Int) : ℚ) + ((86400000 : Int) : ℚ) / ((2678400000 : Int) : ℚ)) := by
    unfold monthsDiffM
    rw [if_neg (by decide), hnn1]
  have hgn1 : ⌊monthsDiffM (mkMillis 2023 3 30 0) (mkMillis 2023 3 31 0)
      / (((1 : Nat) : Nat) : ℚ)⌋ = -1 := by
    rw [hdm1]
    norm_num
  have hsnap1 : snapToGridMillis (mkMillis 2023 3 30 0) ⟨.month, 1⟩
      (some (mkMillis 2023 3 31 0)) = some (mkMillis 2023 2 28 0) := by
    simp only [snapToGridMillis]
    rw [if_neg (by decide), if_neg (by decide), hgn1]
    rw [show (-1 : Int) * ((1 : Nat) : Int) = -1 from by norm_num]
    rw [show plusMonthsM (mkMillis 2023 3 31 0) (-1) = mkMillis 2023 2 28 0 from by decide]
  have hc2 : monthIndexM (mkMillis 2023 3 31 0) - monthIndexM (mkMillis 2023 2 28 0) = 1 := by
    decide
  have hnn2 : monthsDiffNN (mkMillis 2023 2 28 0) (mkMillis 2023 3 31 0)
      = ((1 : Int) : ℚ) + ((259200000 : Int) : ℚ) / ((2678400000 : Int) : ℚ) := by
    unfold monthsDiffNN
    simp only [hc2]
    rw [if_pos (by decide), if_neg (by decide)]
    rw [show mkMillis 2023 3 31 0 - plusMonthsM (mkMillis 2023 2 28 0) 1 = 259200000 from by
      decide]
    rw [show plusMonthsM (plusMonthsM (mkMillis 2023 2 28 0) 1) 1
        - plusMonthsM (mkMillis 2023 2 28 0) 1 = 2678400000 from by decide]
  have hdm2 : monthsDiffM (mkMillis 2023 2 28 0) (mkMillis 2023 3 31 0)
      = -(((1 : Int) : ℚ) + ((259200000 : Int) : ℚ) / ((2678400000 : Int) : ℚ)) := by
    unfold monthsDiffM
    rw [if_neg (by decide), hnn2]
  have hgn2 : ⌊monthsDiffM (mkMillis 2023 2 28 0) (mkMillis 2023 3 31 0)
      / (((1 : Nat) : Nat) : ℚ)⌋ = -2 := by
    rw [hdm2]
    norm_num
  have hsnap2 : snapToGridMillis (mkMillis 2023 2 28 0) ⟨.month, 1⟩
      (some (mkMillis 2023 3 31 0)) = some (mkMillis 2023 1 31 0) := by
    simp only [snapToGridMillis]
    rw [if_neg (by decide), if_neg (by decide), hgn2]
    rw [show (-2 : Int) * ((1 : Nat) : Int) = -2 from by norm_num]
    rw [show plusMonthsM (mkMillis 2023 3 31 0) (-2) = mkMillis 2023 1 31 0 from by decide]
  rw [hsnap1, Option.some_bind, hsnap2]
  intro hcontra
  have := Option.some.inj hcontra
  exact absurd this (by decide)

/-- C3 amended: with pairwise-distinct interval ids and a non-empty
selection, `handleMultiply` rewrites each selected interval to
`start := anchor + (start - anchor) * f` — exactly the claimed start formula,
with `anchor` the minimum selected start (conjuncts two and three) — but its
new grid amount is `max 1 (round (duration * f / msPerGridUnit))`, recomputed
from the scaled duration and the current grid-cell length, not the claimed
`max 1 (round (gridAmount * f))`.  Unselected intervals are untouched. -/
theorem c3_handleMultiply_formula (st : TimelineState) (now : Int) (f : ℚ)
    (hnd : (st.intervals.map (fun i => i.id)).Nodup)
    (hne : st.intervals.filter
      (fun interval => st.selectedIntervalIds.contains interval.id) ≠ []) :
    (handleMultiply st now f).intervals
        = st.intervals.map (fun b =>
            if st.selectedIntervalIds.contains b.id then
              { b with
                startTime := multiplyAnchor st + (b.startTime - multiplyAnchor st) * f
                gridAmount := max 1 (jsRound (getIntervalDuration b * f
                  / ((getMillisecondsPerGridUnit now st.gridSettings : Int) : ℚ))) }
            else b)
      ∧ (∀ i ∈ st.intervals, st.selectedIntervalIds.contains i.id = true →
          multiplyAnchor st ≤ i.startTime)
      ∧ (∃ i, i ∈ st.intervals ∧ st.selectedIntervalIds.contains i.id = true ∧
          multiplyAnchor st = i.startTime) := by
  have hinj : ∀ a ∈ st.intervals, ∀ b ∈ st.intervals, a.id = b.id → a = b := by
    intro a ha b hb he
    exact List.inj_on_of_nodup_map hnd ha hb he
  have hsel_nd : (st.intervals.filter
      (fun interval => st.selectedIntervalIds.contains interval.id)).Nodup :=
    (List.Nodup.of_map _ hnd).filter _
  refine ⟨?_, ?_, ?_⟩
  · have h0 : handleMultiply st now f
        = (st.intervals.filter
            (fun interval => st.selectedIntervalIds.contains interval.id)).foldl
          (fun s i => timelineReducer s (.updateInterval i.id (multiplyUpdate st now f i)))
          st := by
      simp only [handleMultiply]
      rw [if_neg hne]
      rfl
    rw [h0, foldl_updateInterval_state _ (multiplyUpdate st now f) st]
    have hex := foldl_map_exchange
      (st.intervals.filter
        (fun interval => st.selectedIntervalIds.contains interval.id))
      (fun i b => if b.id = i.id then applyUpdates b (multiplyUpdate st now f i) else b)
      st.intervals
    rw [hex]
    refine List.map_congr_left ?_
    intro b hb
    by_cases hc : st.selectedIntervalIds.contains b.id = true
    · have hbm : b ∈ st.intervals.filter
          (fun interval => st.selectedIntervalIds.contains interval.id) :=
        List.mem_filter.mpr ⟨hb, hc⟩
      have huniq : ∀ i ∈ st.intervals.filter
          (fun interval => st.selectedIntervalIds.contains interval.id),
          i.id = b.id → i = b := by
        intro i hi he
        exact hinj i (List.mem_of_mem_filter hi) b hb he
      rw [foldl_match_unique _ (multiplyUpdate st now f) b (fun i => rfl) hsel_nd hbm huniq]
      have harg : multiplyAnchor st + (getIntervalEndTime b - multiplyAnchor st) * f
          - (multiplyAnchor st + (b.startTime - multiplyAnchor st) * f)
          = getIntervalDuration b * f := by
        unfold getIntervalDuration
        ring
      rw [if_pos hc]
      simp only [applyUpdates, multiplyUpdate, harg, Option.getD_some, Option.getD_none]
    · have hskip : ∀ i ∈ st.intervals.filter
          (fun interval => st.selectedIntervalIds.contains interval.id),
          i.id ≠ b.id := by
        intro i hi he
        have hisel := (List.mem_filter.mp hi).2
        have : i = b := hinj i (List.mem_of_mem_filter hi) b hb he
        rw [this] at hisel
        exact hc hisel
      rw [foldl_match_skip _ (multiplyUpdate st now f) b hskip, if_neg hc]
  · intro i hi hci
    have him : i.startTime ∈ (st.intervals.filter
        (fun interval => st.selectedIntervalIds.contains interval.id)).map
        (·.startTime) :=
      List.mem_map.mpr ⟨i, List.mem_filter.mpr ⟨hi, hci⟩, rfl⟩
    exact foldl_min_le _ _ _ him
  · rcases foldl_min_mem
        ((st.intervals.filter
          (fun interval => st.selectedIntervalIds.contains interval.id)).map
          (·.startTime))
        (((st.intervals.filter
          (fun interval => st.selectedIntervalIds.contains interval.id)).map
          (·.startTime)).headD 0) with h | h
    · rcases hl : st.intervals.filter
          (fun interval => st.selectedIntervalIds.contains interval.id) with _ | ⟨x, xs⟩
      · exact absurd hl hne
      · have hx : x ∈ st.intervals.filter
            (fun interval => st.selectedIntervalIds.contains interval.id) := by
          rw [hl]
          exact List.mem_cons_self x xs
        refine ⟨x, (List.mem_filter.mp hx).1, (List.mem_filter.mp hx).2, ?_⟩
        show multiplyAnchor st = x.startTime
        unfold multiplyAnchor
        rw [hl] at h ⊢
        simpa using h
    · rcases List.mem_map.mp h with ⟨i, hi, hie⟩
      exact ⟨i, (List.mem_filter.mp hi).1, (List.mem_filter.mp hi).2, hie.symm⟩

/-- C3 counterexample: one selected 1-day interval, month grid, factor 2
(at the epoch instant).  The code leaves `gridAmount = 1` — the doubled
duration is two days, well under one month cell, and rounds to 0 cells,
clamped to 1 — while the claim demands `max(1, round(1 * 2)) = 2`. -/
theorem c3_counterexample :
    (handleMultiply ⟨[⟨"a", 0, .day, 1, none⟩], ["a"], ⟨.month, 1⟩, []⟩ 0 2).intervals
        = [⟨"a", 0, .day, 1, none⟩]
      ∧ multiplyClaimGridAmount ⟨"a", 0, .day, 1, none⟩ 2 = 2
      ∧ (1 : Int) ≠ 2 := by
  have hend : getIntervalEndTime ⟨"a", 0, .day, 1, none⟩ = 86400000 := by
    unfold getIntervalEndTime advanceMillis plusDaysM msPerDay
    norm_num
  have hms : getMillisecondsPerGridUnit 0 ⟨.month, 1⟩ = 2678400000 := by decide
  have hfil : (([⟨"a", (0 : ℚ), GridIntervalUnit.day, 1, none⟩] :
      List TimelineIntervalV2).filter
      (fun interval => (["a"] : List String).contains interval.id))
      = [⟨"a", (0 : ℚ), GridIntervalUnit.day, 1, none⟩] := by decide
  refine ⟨?_, ?_, by norm_num⟩
  · simp only [handleMultiply, hfil]
    rw [if_neg (by decide)]
    simp [timelineReducer, applyUpdates, hend, hms, jsRound]
    norm_num
  · norm_num [multiplyClaimGridAmount, jsRound]

theorem c3_witness :
    (handleMultiply ⟨[⟨"b", 0, .day, 1, none⟩], ["b"], ⟨.day, 1⟩, []⟩ 0 2).intervals
        = [(⟨"b", 0, GridIntervalUnit.day, 1, none⟩ : TimelineIntervalV2)].map (fun b =>
            if (["b"] : List String).contains b.id then
              { b with
                startTime := multiplyAnchor ⟨[⟨"b", 0, .day, 1, none⟩], ["b"], ⟨.day, 1⟩, []⟩
                  + (b.startTime
                    - multiplyAnchor ⟨[⟨"b", 0, .day, 1, none⟩], ["b"], ⟨.day, 1⟩, []⟩) * 2
                gridAmount := max 1 (jsRound (getIntervalDuration b * 2
                  / ((getMillisecondsPerGridUnit 0 ⟨.day, 1⟩ : Int) : ℚ))) }
            else b) :=
  (c3_handleMultiply_formula ⟨[⟨"b", 0, .day, 1, none⟩], ["b"], ⟨.day, 1⟩, []⟩ 0 2
    (by decide) (by decide)).1

theorem advanceMillis_progress (cur : Int) (u : GridIntervalUnit) (v : Nat) (hv : 1 ≤ v) :
    cur + 1 ≤ advanceMillis cur u (v : Int) := by
  cases u with
  | day =>
    show cur + 1 ≤ plusDaysM cur (v : Int)
    unfold plusDaysM msPerDay
    have hv' : (1 : Int) ≤ (v : Int) := by exact_mod_cast hv
    omega
  | month =>
    have h := plusMonthsM_strictMono cur (show (0 : Int) < (v : Int) by exact_mod_cast hv)
    rw [plusMonthsM_zero] at h
    show cur + 1 ≤ plusMonthsM cur (v : Int)
    omega
  | year =>
    have h := plusYearsM_strictMono cur (show (0 : Int) < (v : Int) by exact_mod_cast hv)
    rw [plusYearsM_zero] at h
    show cur + 1 ≤ plusYearsM cur (v : Int)
    omega

theorem gridLinesFuel_terminates (bounds : TimelineBounds) (g : GridSettings)
    (pixelsPerMs : ℚ) (hv : 1 ≤ g.value) :
    ∀ n : Nat, ∀ cur : Int, ∀ acc : List GridLine,
      (bounds.maxDate + 1 - cur).toNat ≤ n →
      ∃ lines, generateGridLinesFuel bounds g pixelsPerMs (n + 1) cur acc = some lines := by
  intro n
  induction n with
  | zero =>
    intro cur acc hle
    have hgt : ¬ cur ≤ bounds.maxDate := by omega
    exact ⟨acc, by simp only [generateGridLinesFuel]; rw [if_neg hgt]⟩
  | succ n ih =>
    intro cur acc hle
    by_cases hc : cur ≤ bounds.maxDate
    · have hprog := advanceMillis_progress cur g.unit g.value hv
      have hle' : (bounds.maxDate + 1 - advanceMillis cur g.unit (g.value : Int)).toNat ≤ n := by
        omega
      obtain ⟨lines, hl⟩ := ih (advanceMillis cur g.unit (g.value : Int))
        (acc ++ [gridLineAt cur bounds g pixelsPerMs]) hle'
      exact ⟨lines, by simp only [generateGridLinesFuel]; rw [if_pos hc]; exact hl⟩
    · exact ⟨acc, by simp only [generateGridLinesFuel]; rw [if_neg hc]⟩

/-- C7 amended: grid-line enumeration does terminate whenever the grid value
is at least 1 — each step strictly advances the cursor, so some finite fuel
suffices — but the source loop carries no hard iteration ceiling, and with
`value = 0` it never terminates (see the counterexample). -/
theorem c7_gridLines_terminate (bounds : TimelineBounds) (g : GridSettings)
    (pixelsPerMs : ℚ) (hv : 1 ≤ g.value) :
    ∃ fuel lines, generateGridLines bounds g pixelsPerMs fuel = some lines := by
  obtain ⟨lines, hl⟩ := gridLinesFuel_terminates bounds g pixelsPerMs hv
    ((bounds.maxDate + 1 - startOfUnitM bounds.minDate g.unit).toNat)
    (startOfUnitM bounds.minDate g.unit) [] (le_refl _)
  exact ⟨_, lines, hl⟩

theorem c7_witness :
    1 ≤ (1 : Nat)
      ∧ ∃ fuel lines, generateGridLines ⟨0, 86400000⟩ ⟨.day, 1⟩ 1 fuel = some lines :=
  ⟨by decide, c7_gridLines_terminate ⟨0, 86400000⟩ ⟨.day, 1⟩ 1 (by decide)⟩

/-- C7 counterexample: with `value = 0` the loop never advances — no amount
of fuel makes it stop (the source loop runs forever) — while the same bounds
with `value = 1` finish on fuel 4, so the failure is the missing cap, not the
model. -/
theorem c7_counterexample :
    (∀ fuel, generateGridLines ⟨0, 86400000⟩ ⟨.day, 0⟩ 1 fuel = none)
      ∧ generateGridLines ⟨0, 172800000⟩ ⟨.day, 1⟩ 1 4 ≠ none := by
  constructor
  · have haux : ∀ fuel acc,
        generateGridLinesFuel ⟨0, 86400000⟩ ⟨.day, 0⟩ 1 fuel 0 acc = none := by
      intro fuel
      induction fuel with
      | zero => intro acc; rfl
      | succ n ih =>
        intro acc
        have hstep : advanceMillis 0 GridIntervalUnit.day (((0 : Nat) : Int)) = 0 := by decide
        simp only [generateGridLinesFuel]
        rw [if_pos (by decide), hstep]
        exact ih _
    intro fuel
    have hstart : startOfUnitM 0 GridIntervalUnit.day = 0 := by decide
    show generateGridLinesFuel ⟨0, 86400000⟩ ⟨.day, 0⟩ 1 fuel
      (startOfUnitM 0 GridIntervalUnit.day) [] = none
    rw [hstart]
    exact haux fuel []
  · decide

end TimeEditor

